import Mathlib

/-!
Verification of the streaming summary assembler, the playback controller and
the URL parsing of the youtube-transcript-ai repository.

The definitions below are a shallow embedding of the TypeScript source:

  * text is modelled as `List Nat` (one entry per Unicode code point);
  * the raw network body is modelled as `List Nat` (one entry per byte);
  * the opaque library function `JSON.parse`, applied by the stream loop to
    each balanced-brace span, is modelled as an arbitrary function
    `parse : List Nat → Option GeminiRec` describing what the source reads
    out of the parsed value (the candidate texts and the finish reason);
  * the regular-expression operations of `parseSummaryResponse` and
    `extractVideoId` are embedded by executable functions that follow the
    backtracking semantics of the concrete regex literals in the source.
-/

namespace YTA

/-- Code points of a string literal, used to write concrete inputs. -/
def cp (s : String) : List Nat := s.data.map Char.toNat

/-- JavaScript whitespace (the regexp class together with the characters
stripped by String.prototype.trim): space, tab, LF, VT, FF, CR, NBSP,
line separator, paragraph separator, BOM. -/
def jsWs (c : Nat) : Bool :=
  c == 32 || c == 9 || c == 10 || c == 11 || c == 12 || c == 13 ||
    c == 160 || c == 8232 || c == 8233 || c == 65279

/-- JavaScript line terminators: the characters the regexp metacharacter
dot does not match. -/
def lineTerm (c : Nat) : Bool := c == 10 || c == 13 || c == 8232 || c == 8233

/-- String.prototype.trim: strip leading and trailing JS whitespace. -/
def trimCp (l : List Nat) : List Nat :=
  ((l.dropWhile jsWs).reverse.dropWhile jsWs).reverse

/-- Lower-casing of an ASCII code point, the canonicalisation used by the
case-insensitive regex flag on the ASCII-only patterns of the source. -/
def lowerCp (c : Nat) : Nat := if 65 ≤ c ∧ c ≤ 90 then c + 32 else c

/-- Case-insensitive match of an (ASCII, lowercase) pattern at offset `i`
of a text. -/
def matchCI (pat text : List Nat) (i : Nat) : Bool :=
  decide (((text.drop i).take pat.length).map lowerCp = pat)

/-- First index at which a predicate on the remaining suffix holds, the
left-to-right search a regex engine performs. -/
def scanFirst (p : List Nat → Bool) : List Nat → Nat → Option Nat
  | [], _ => none
  | c :: rest, i => if p (c :: rest) then some i else scanFirst p rest (i + 1)

/-- The pattern of the summary regex of parseSummaryResponse, lowercased. -/
def smPat : List Nat := cp "summary:"

/-- The pattern of the headline regex of parseSummaryResponse, lowercased. -/
def hlPat : List Nat := cp "headline:"

/-- Success condition for the summary regex at a suffix: the marker matches
and at least one character follows it. -/
def smCond (l : List Nat) : Bool :=
  decide ((l.take 8).map lowerCp = smPat) && decide (8 < l.length)

/-- Position of the first match of the regex SUMMARY with anything after it,
case-insensitively, anywhere in the text. -/
def findSm (text : List Nat) : Option Nat := scanFirst smCond text 0

/-- Derivation of the summary component by the source's regex: everything
after the marker (the capture starts after the greedily consumed, then
once backtracked, whitespace run), trimmed; without a match, the whole
text trimmed. -/
def summaryOf (text : List Nat) : List Nat :=
  match findSm text with
  | some i =>
    let r := text.drop (i + 8)
    trimCp (r.drop (min ((r.takeWhile jsWs).length) (r.length - 1)))
  | none => trimCp text

/-- Does the headline capture succeed with the whitespace run cut at `j`:
at least one non-line-terminator character there, ended by a newline or
the end of the text. -/
def hlBlockOk (r : List Nat) (j : Nat) : Bool :=
  let rest := r.drop j
  let cap := rest.takeWhile (fun c => !lineTerm c)
  (!cap.isEmpty) && (match rest.drop cap.length with
    | [] => true
    | c :: _ => c == 10)

/-- The headline capture when the whitespace run is cut at `j`. -/
def hlCapture (r : List Nat) (j : Nat) : List Nat :=
  (r.drop j).takeWhile (fun c => !lineTerm c)

/-- Backtracking of the greedy whitespace run of the headline regex: try
the longest run first, then shorter ones. -/
def hlDescend (r : List Nat) : Nat → Option Nat
  | 0 => if hlBlockOk r 0 then some 0 else none
  | j + 1 => if hlBlockOk r (j + 1) then some (j + 1) else hlDescend r j

/-- Attempt of the headline regex tail at the suffix after the marker. -/
def hlTry (r : List Nat) : Option (List Nat) :=
  match hlDescend r ((r.takeWhile jsWs).length) with
  | some j => some (hlCapture r j)
  | none => none

/-- Success condition of the whole headline regex at a suffix. -/
def hlCond (l : List Nat) : Bool :=
  decide ((l.take 9).map lowerCp = hlPat) && (hlTry (l.drop 9)).isSome

/-- Position of the first position where the full headline regex matches. -/
def findHl (text : List Nat) : Option Nat := scanFirst hlCond text 0

/-- Derivation of the headline component by the source's regex. -/
def headlineOf (text : List Nat) : List Nat :=
  match findHl text with
  | some i =>
    match hlTry (text.drop (i + 9)) with
    | some cap => trimCp cap
    | none => []
  | none => []

/-- The record the service derives from the accumulated text. -/
structure SummaryRec where
  summary : List Nat
  headline : List Nat
deriving DecidableEq, Repr

/-- Embedding of parseSummaryResponse of src/src/app/services/api.ts. -/
def parseSummaryResponse (text : List Nat) : SummaryRec :=
  { summary := summaryOf text, headline := headlineOf text }

/-- First index below `n` satisfying a predicate; the search order the
spec describes for locating the first marker occurrence. -/
def firstIdx (p : Nat → Bool) (n : Nat) : Option Nat := (List.range n).find? p

/-- Spec reading of the summary derivation (as amended): the text after the
first case-insensitive SUMMARY marker followed by at least one character,
trimmed; the whole text trimmed when there is no such occurrence. -/
def specSummaryOf (text : List Nat) : List Nat :=
  match firstIdx (fun i => matchCI smPat text i && decide (i + 8 < text.length)) text.length with
  | some i => trimCp (text.drop (i + 8))
  | none => trimCp text

/-- Spec reading of the headline derivation (as amended): the capture after
the first case-insensitive HEADLINE marker anywhere in the text whose tail
admits a capture, trimmed; empty otherwise; independent of the SUMMARY
marker. -/
def specHeadlineOf (text : List Nat) : List Nat :=
  match firstIdx (fun i => matchCI hlPat text i && (hlTry (text.drop (i + 9))).isSome) text.length with
  | some i =>
    match hlTry (text.drop (i + 9)) with
    | some capt => trimCp capt
    | none => []
  | none => []

/-- Spec reading of the whole record derivation. -/
def specParseSummary (text : List Nat) : SummaryRec :=
  { summary := specSummaryOf text, headline := specHeadlineOf text }

theorem scanFirst_some_iff (p : List Nat → Bool) (l : List Nat) :
    ∀ (i m : Nat), scanFirst p l i = some m ↔
      ∃ j, m = i + j ∧ j < l.length ∧ p (l.drop j) = true ∧
        ∀ k, k < j → p (l.drop k) = false := by
  induction l with
  | nil => intro i m; simp [scanFirst]
  | cons c rest ih =>
    intro i m
    by_cases h : p (c :: rest) = true
    · rw [scanFirst, if_pos h]
      constructor
      · intro hs
        have hm : i = m := by injection hs
        subst hm
        exact ⟨0, by omega, by simp, by simpa using h, fun k hk => absurd hk (by omega)⟩
      · rintro ⟨j, rfl, _, _, hmin⟩
        rcases Nat.eq_zero_or_pos j with rfl | hj
        · simp
        · have h0 := hmin 0 hj
          simp only [List.drop_zero] at h0
          simp [h0] at h
    · rw [scanFirst, if_neg h, ih (i + 1) m]
      constructor
      · rintro ⟨j, rfl, hlen, hp, hmin⟩
        refine ⟨j + 1, by omega, by simp; omega, by simpa using hp, ?_⟩
        intro k hk
        match k with
        | 0 => simpa using eq_false_of_ne_true h
        | Nat.succ k2 => simpa using hmin k2 (by omega)
      · rintro ⟨j, hj, hlen, hp, hmin⟩
        match j with
        | 0 => simp only [List.drop_zero] at hp; exact absurd hp h
        | Nat.succ j2 =>
          refine ⟨j2, by omega, by simp at hlen; omega, by simpa using hp, ?_⟩
          intro k hk
          simpa using hmin (k + 1) (by omega)

theorem scanFirst_none_iff (p : List Nat → Bool) (l : List Nat) :
    ∀ (i : Nat), scanFirst p l i = none ↔
      ∀ k, k < l.length → p (l.drop k) = false := by
  induction l with
  | nil => intro i; simp [scanFirst]
  | cons c rest ih =>
    intro i
    by_cases h : p (c :: rest) = true
    · rw [scanFirst, if_pos h]
      constructor
      · intro hs; cases hs
      · intro hall
        have h0 := hall 0 (by simp)
        simp only [List.drop_zero] at h0
        simp [h0] at h
    · rw [scanFirst, if_neg h, ih (i + 1)]
      constructor
      · intro hall k hk
        match k with
        | 0 => simpa using eq_false_of_ne_true h
        | Nat.succ k2 => simpa using hall k2 (by simp at hk; omega)
      · intro hall k hk
        simpa using hall (k + 1) (by simp; omega)

theorem firstIdx_some_iff (p : Nat → Bool) (n : Nat) : ∀ j,
    firstIdx p n = some j ↔ j < n ∧ p j = true ∧ ∀ k, k < j → p k = false := by
  induction n with
  | zero => intro j; simp [firstIdx]
  | succ n ih =>
    intro j
    rw [firstIdx, List.range_succ, List.find?_append]
    cases hfind : (List.range n).find? p with
    | some v =>
      have hv := (ih v).mp (by rw [firstIdx]; exact hfind)
      constructor
      · intro hs
        have : v = j := by
          simpa using hs
        subst this
        exact ⟨by omega, hv.2.1, hv.2.2⟩
      · rintro ⟨hjn, hpj, hmin⟩
        have : j = v := by
          rcases Nat.lt_trichotomy j v with hlt | heq | hgt
          · have := hv.2.2 j hlt
            rw [this] at hpj; cases hpj
          · exact heq
          · have := hmin v hgt
            rw [this] at hv
            exact absurd hv.2.1 (by simp)
        subst this
        simp
    | none =>
      have hnone : ∀ k, k < n → p k = false := by
        intro k hk
        have := List.find?_eq_none.mp hfind k (by simp [List.mem_range]; omega)
        simpa using this
      by_cases hpn : p n = true
      · constructor
        · intro hs
          have : n = j := by
            simp [List.find?, hpn] at hs
            exact hs
          subst this
          exact ⟨by omega, hpn, hnone⟩
        · rintro ⟨hjn, hpj, hmin⟩
          have : j = n := by
            rcases Nat.lt_trichotomy j n with hlt | heq | hgt
            · have := hnone j hlt
              rw [this] at hpj; cases hpj
            · exact heq
            · omega
          subst this
          simp [List.find?, hpn]
      · constructor
        · intro hs
          simp [List.find?, hpn] at hs
        · rintro ⟨hjn, hpj, hmin⟩
          rcases Nat.lt_trichotomy j n with hlt | heq | hgt
          · have := hnone j hlt
            rw [this] at hpj; cases hpj
          · subst heq
            rw [hpj] at hpn; cases hpn rfl
          · omega

theorem firstIdx_none_iff (p : Nat → Bool) (n : Nat) :
    firstIdx p n = none ↔ ∀ k, k < n → p k = false := by
  rw [firstIdx, List.find?_eq_none]
  constructor
  · intro h k hk
    simpa using h k (by simp [List.mem_range]; omega)
  · intro h k hk
    simp only [List.mem_range] at hk
    simp [h k hk]

theorem dropWhile_drop_of_le (p : Nat → Bool) (l : List Nat) :
    ∀ j, j ≤ (l.takeWhile p).length → (l.drop j).dropWhile p = l.dropWhile p := by
  induction l with
  | nil => intro j hj; simp
  | cons c rest ih =>
    intro j hj
    match j with
    | 0 => simp
    | Nat.succ j2 =>
      have hc : p c = true := by
        by_contra hc
        have hfalse : p c = false := eq_false_of_ne_true hc
        rw [List.takeWhile_cons, hfalse] at hj
        simp at hj
      rw [List.takeWhile_cons, hc] at hj
      simp only [if_true, List.length_cons] at hj
      rw [List.drop_succ_cons, List.dropWhile_cons, hc]
      simp only [if_true]
      exact ih j2 (by omega)

theorem trimCp_drop_ws (l : List Nat) (j : Nat) (hj : j ≤ (l.takeWhile jsWs).length) :
    trimCp (l.drop j) = trimCp l := by
  unfold trimCp
  rw [dropWhile_drop_of_le jsWs l j hj]

theorem smCond_drop (text : List Nat) (i : Nat) :
    smCond (text.drop i) = (matchCI smPat text i && decide (i + 8 < text.length)) := by
  unfold smCond matchCI
  have h1 : smPat.length = 8 := rfl
  rw [h1]
  congr 1
  exact decide_eq_decide.mpr (by rw [List.length_drop]; omega)

theorem hlCond_drop (text : List Nat) (i : Nat) :
    hlCond (text.drop i) = (matchCI hlPat text i && (hlTry (text.drop (i + 9))).isSome) := by
  unfold hlCond matchCI
  have h1 : hlPat.length = 9 := rfl
  have h2 : (text.drop i).drop 9 = text.drop (i + 9) := by
    rw [List.drop_drop]
  rw [h1, h2]

theorem findSm_eq_firstIdx (text : List Nat) :
    findSm text =
      firstIdx (fun i => matchCI smPat text i && decide (i + 8 < text.length)) text.length := by
  cases h : findSm text with
  | some i =>
    rcases (scanFirst_some_iff smCond text 0 i).mp h with ⟨j, hj, hlen, hp, hmin⟩
    have hij : i = j := by omega
    subst hij
    symm
    rw [firstIdx_some_iff]
    refine ⟨hlen, ?_, ?_⟩
    · rw [← smCond_drop]; exact hp
    · intro k hk
      rw [← smCond_drop]; exact hmin k hk
  | none =>
    have hall := (scanFirst_none_iff smCond text 0).mp h
    symm
    rw [firstIdx_none_iff]
    intro k hk
    rw [← smCond_drop]
    exact hall k hk

theorem findHl_eq_firstIdx (text : List Nat) :
    findHl text =
      firstIdx (fun i => matchCI hlPat text i && (hlTry (text.drop (i + 9))).isSome) text.length := by
  cases h : findHl text with
  | some i =>
    rcases (scanFirst_some_iff hlCond text 0 i).mp h with ⟨j, hj, hlen, hp, hmin⟩
    have hij : i = j := by omega
    subst hij
    symm
    rw [firstIdx_some_iff]
    refine ⟨hlen, ?_, ?_⟩
    · rw [← hlCond_drop]; exact hp
    · intro k hk
      rw [← hlCond_drop]; exact hmin k hk
  | none =>
    have hall := (scanFirst_none_iff hlCond text 0).mp h
    symm
    rw [firstIdx_none_iff]
    intro k hk
    rw [← hlCond_drop]
    exact hall k hk

theorem trimCp_append_len (t s : List Nat) :
    (trimCp t).length ≤ (trimCp (t ++ s)).length := by
  unfold trimCp
  rw [List.dropWhile_append]
  by_cases h : (t.dropWhile jsWs).isEmpty
  · have ht : t.dropWhile jsWs = [] := by simpa [List.isEmpty_iff] using h
    rw [if_pos h, ht]
    simp
  · rw [if_neg h, List.reverse_append, List.dropWhile_append]
    by_cases h2 : (s.reverse.dropWhile jsWs).isEmpty
    · rw [if_pos h2]
    · rw [if_neg h2]
      simp only [List.length_reverse, List.length_append]
      have hle : ((t.dropWhile jsWs).reverse.dropWhile jsWs).length ≤
          (t.dropWhile jsWs).length := by
        have h3 : ((t.dropWhile jsWs).reverse.dropWhile jsWs).length ≤
            (t.dropWhile jsWs).reverse.length :=
          (List.dropWhile_sublist jsWs).length_le
        simpa using h3
      omega

theorem matchCI_append (pat t s : List Nat) (j : Nat) (h : j + pat.length ≤ t.length) :
    matchCI pat (t ++ s) j = matchCI pat t j := by
  unfold matchCI
  rw [List.drop_append_of_le_length (by omega),
    List.take_append_of_le_length (by rw [List.length_drop]; omega)]

theorem findSm_bound (t : List Nat) (j : Nat) (h : findSm t = some j) :
    j + 8 < t.length ∧ matchCI smPat t j = true := by
  rcases (scanFirst_some_iff smCond t 0 j).mp h with ⟨j2, hj, hlen, hp, hmin⟩
  have hjj : j = j2 := by omega
  subst hjj
  rw [smCond_drop] at hp
  simp only [Bool.and_eq_true, decide_eq_true_eq] at hp
  exact ⟨hp.2, hp.1⟩

theorem findSm_append (t s : List Nat) (j : Nat) (h : findSm t = some j) :
    findSm (t ++ s) = some j := by
  rcases (scanFirst_some_iff smCond t 0 j).mp h with ⟨j2, hj, hlen, hp, hmin⟩
  have hjj : j = j2 := by omega
  subst hjj
  rw [smCond_drop] at hp
  simp only [Bool.and_eq_true, decide_eq_true_eq] at hp
  apply (scanFirst_some_iff smCond (t ++ s) 0 j).mpr
  refine ⟨j, by omega, by rw [List.length_append]; omega, ?_, ?_⟩
  · rw [smCond_drop]
    simp only [Bool.and_eq_true, decide_eq_true_eq]
    constructor
    · rw [matchCI_append _ _ _ _ (by have hsp : smPat.length = 8 := rfl; omega)]
      exact hp.1
    · rw [List.length_append]; omega
  · intro k hk
    have hk8 : k + 8 < t.length := by omega
    have hmk := hmin k hk
    rw [smCond_drop] at hmk
    have hmf : matchCI smPat t k = false := by
      rcases Bool.eq_false_or_eq_true (matchCI smPat t k) with ht2 | hf
      · exfalso
        rw [ht2] at hmk
        simp [hk8] at hmk
      · exact hf
    rw [smCond_drop, matchCI_append _ _ _ _ (by have hsp : smPat.length = 8 := rfl; omega),
      hmf]
    simp

theorem summaryOf_some (text : List Nat) (i : Nat) (h : findSm text = some i) :
    summaryOf text = trimCp (text.drop (i + 8)) := by
  unfold summaryOf
  rw [h]
  exact trimCp_drop_ws _ _ (Nat.min_le_left _ _)

theorem summary_len_mono (t s : List Nat) (j : Nat) (h : findSm t = some j) :
    (summaryOf t).length ≤ (summaryOf (t ++ s)).length := by
  have h2 := findSm_append t s j h
  have hb := findSm_bound t j h
  rw [summaryOf_some t j h, summaryOf_some (t ++ s) j h2,
    List.drop_append_of_le_length (by omega)]
  exact trimCp_append_len _ _

theorem summaryOf_eq_spec (text : List Nat) : summaryOf text = specSummaryOf text := by
  unfold specSummaryOf
  rw [← findSm_eq_firstIdx]
  cases h : findSm text with
  | some i => exact summaryOf_some text i h
  | none => unfold summaryOf; rw [h]

theorem headlineOf_eq_spec (text : List Nat) : headlineOf text = specHeadlineOf text := by
  unfold specHeadlineOf
  rw [← findHl_eq_firstIdx]
  unfold headlineOf
  rfl

theorem parse_matches_spec (text : List Nat) :
    parseSummaryResponse text = specParseSummary text := by
  unfold parseSummaryResponse specParseSummary
  rw [summaryOf_eq_spec, headlineOf_eq_spec]

/-- Byte length of the UTF-8 sequence announced by a leading byte; the
amount of input the streaming text decoder needs before it can emit the
next code point. A stray continuation byte or an illegal leading byte is
consumed alone (as a replacement character), the behaviour of a
non-fatal TextDecoder; the streaming claims only exercise well-formed
byte streams. -/
def utf8Len (b : Nat) : Nat :=
  if b < 192 then 1 else if b < 224 then 2 else if b < 240 then 3 else
    if b < 248 then 4 else 1

/-- Code point assembled from one complete UTF-8 sequence. -/
def decodeCp : List Nat → Nat
  | [b] => if b < 128 then b else 65533
  | [b, b1] => (b - 192) * 64 + (b1 - 128)
  | [b, b1, b2] => (b - 224) * 4096 + (b1 - 128) * 64 + (b2 - 128)
  | [b, b1, b2, b3] => (b - 240) * 262144 + (b1 - 128) * 4096 + (b2 - 128) * 64 + (b3 - 128)
  | _ => 65533

/-- Embedding of decoder.decode(value, stream true), fuel-indexed so that
the recursion is structural: decode every complete UTF-8 sequence of the
accumulated bytes and keep the trailing incomplete sequence as carry-over
for the next chunk. The fuel never runs out when it is at least the number
of bytes, since every step consumes at least one byte. -/
def decodeStreamF : Nat → List Nat → List Nat × List Nat
  | 0, bs => ([], bs)
  | fuel + 1, bs =>
    match bs with
    | [] => ([], [])
    | b :: _ =>
      if bs.length < utf8Len b then ([], bs)
      else
        ((decodeCp (bs.take (utf8Len b))) :: (decodeStreamF fuel (bs.drop (utf8Len b))).1,
          (decodeStreamF fuel (bs.drop (utf8Len b))).2)

/-- The streaming decoder with always-sufficient fuel. -/
def decodeStream (bs : List Nat) : List Nat × List Nat := decodeStreamF bs.length bs

theorem utf8Len_pos (b : Nat) : 1 ≤ utf8Len b := by
  unfold utf8Len
  split <;> try omega
  split <;> try omega
  split <;> try omega
  split <;> omega

theorem decodeStreamF_fuel (f1 : Nat) : ∀ (f2 : Nat) (bs : List Nat),
    bs.length ≤ f1 → bs.length ≤ f2 → decodeStreamF f1 bs = decodeStreamF f2 bs := by
  induction f1 with
  | zero =>
    intro f2 bs h1 h2
    have hbs : bs = [] := List.length_eq_zero.mp (by omega)
    subst hbs
    cases f2 <;> rfl
  | succ f1 ih =>
    intro f2 bs h1 h2
    cases bs with
    | nil => cases f2 <;> rfl
    | cons b rest =>
      have hf2 : ∃ g, f2 = g + 1 := by
        cases f2 with
        | zero => simp at h2
        | succ g => exact ⟨g, rfl⟩
      rcases hf2 with ⟨g, rfl⟩
      show decodeStreamF (f1 + 1) (b :: rest) = decodeStreamF (g + 1) (b :: rest)
      rw [decodeStreamF, decodeStreamF]
      by_cases hl : (b :: rest).length < utf8Len b
      · simp only [if_pos hl]
      · simp only [if_neg hl]
        have hlen : ((b :: rest).drop (utf8Len b)).length ≤ f1 := by
          rw [List.length_drop]
          have := utf8Len_pos b
          simp only [List.length_cons] at h1 ⊢
          omega
        have hlen2 : ((b :: rest).drop (utf8Len b)).length ≤ g := by
          rw [List.length_drop]
          have := utf8Len_pos b
          simp only [List.length_cons] at h2 ⊢
          omega
        rw [ih g ((b :: rest).drop (utf8Len b)) hlen hlen2]

theorem decodeStream_nil : decodeStream [] = ([], []) := rfl

theorem decodeStream_cons (b : Nat) (rest : List Nat) :
    decodeStream (b :: rest) =
      if (b :: rest).length < utf8Len b then ([], b :: rest)
      else
        ((decodeCp ((b :: rest).take (utf8Len b))) ::
            (decodeStream ((b :: rest).drop (utf8Len b))).1,
          (decodeStream ((b :: rest).drop (utf8Len b))).2) := by
  show decodeStreamF ((b :: rest).length) (b :: rest) = _
  simp only [List.length_cons]
  rw [decodeStreamF]
  simp only [List.length_cons]
  by_cases hl : rest.length + 1 < utf8Len b
  · simp only [if_pos hl]
  · simp only [if_neg hl]
    have hL := utf8Len_pos b
    rw [decodeStreamF_fuel rest.length (((b :: rest).drop (utf8Len b)).length)
      ((b :: rest).drop (utf8Len b))
      (by rw [List.length_drop]; simp only [List.length_cons]; omega)
      (by omega)]
    rfl

/-- Streaming decode of a byte list followed by more bytes equals decoding
the first part and then resuming from its carry-over. -/
theorem decodeStream_append (bs1 bs2 : List Nat) :
    decodeStream (bs1 ++ bs2) =
      ((decodeStream bs1).1 ++ (decodeStream ((decodeStream bs1).2 ++ bs2)).1,
        (decodeStream ((decodeStream bs1).2 ++ bs2)).2) := by
  have H : ∀ (n : Nat) (l : List Nat), l.length = n →
      decodeStream (l ++ bs2) =
        ((decodeStream l).1 ++ (decodeStream ((decodeStream l).2 ++ bs2)).1,
          (decodeStream ((decodeStream l).2 ++ bs2)).2) := by
    intro n
    induction n using Nat.strong_induction_on with
    | _ n ih =>
      intro l hn
      cases l with
      | nil => simp [decodeStream_nil]
      | cons b rest =>
        by_cases hl : (b :: rest).length < utf8Len b
        · rw [decodeStream_cons b rest]
          simp only [if_pos hl]
          simp [List.cons_append]
        · rw [List.cons_append, decodeStream_cons b (rest ++ bs2), decodeStream_cons b rest]
          have hL := utf8Len_pos b
          have hl2 : ¬ (b :: (rest ++ bs2)).length < utf8Len b := by
            simp only [List.length_cons, List.length_append] at hl ⊢
            omega
          simp only [if_neg hl, if_neg hl2]
          have hle : utf8Len b ≤ (b :: rest).length := by
            simp only [List.length_cons] at hl ⊢
            omega
          have htake : (b :: (rest ++ bs2)).take (utf8Len b) = (b :: rest).take (utf8Len b) := by
            rw [← List.cons_append, List.take_append_of_le_length hle]
          have hdrop : (b :: (rest ++ bs2)).drop (utf8Len b) =
              (b :: rest).drop (utf8Len b) ++ bs2 := by
            rw [← List.cons_append, List.drop_append_of_le_length hle]
          rw [htake, hdrop,
            ih (((b :: rest).drop (utf8Len b)).length)
              (by rw [List.length_drop]; subst hn; simp only [List.length_cons]; omega)
              ((b :: rest).drop (utf8Len b)) rfl]
          simp
  exact H bs1.length bs1 rfl

/-- What the stream loop reads out of one JSON.parse result: the texts of
candidates[0].content.parts in order (a part without a usable text is
modelled as the empty list, which the loop skips), and whether
candidates[0].finishReason equals STOP. -/
structure GeminiRec where
  parts : List (List Nat)
  finishStop : Bool
deriving DecidableEq, Repr

/-- State of the read loop of generateSummaryStream: the unparsed text
buffer, the accumulated full text, the fullText snapshots at each
subject.next call, and whether the finish marker ended the session. -/
structure ScanSt where
  buffer : List Nat
  fullText : List Nat
  emitted : List (List Nat)
  stopped : Bool
deriving DecidableEq, Repr

/-- String.prototype.indexOf for one character, from a start offset. -/
def idxAux (t : Nat) : List Nat → Nat → Option Nat
  | [], _ => none
  | c :: rest, i => if c = t then some i else idxAux t rest (i + 1)

/-- buffer.indexOf of the opening brace from startIndex. -/
def findBrace (b : List Nat) (i : Nat) : Option Nat := idxAux 123 (b.drop i) i

/-- The brace-counting loop of the source: scan forward keeping a nesting
depth, return the index one past the character that closes the object. -/
def braceAux : List Nat → Nat → Int → Option Nat
  | [], _, _ => none
  | c :: rest, i, depth =>
    if c = 123 then braceAux rest (i + 1) (depth + 1)
    else if c = 125 then
      if depth - 1 = 0 then some (i + 1) else braceAux rest (i + 1) (depth - 1)
    else braceAux rest (i + 1) depth

/-- Matching close for the object starting at index `s` of the buffer. -/
def braceScan (b : List Nat) (s : Nat) : Option Nat := braceAux (b.drop s) s 0

/-- The inner for-loop over the parts of one parsed record: every part with
a non-empty text is appended to fullText and causes one emission of the
new fullText. -/
def processParts : List Nat → List (List Nat) → List (List Nat) → List Nat × List (List Nat)
  | f, e, [] => (f, e)
  | f, e, t :: ts =>
    if t.isEmpty then processParts f e ts
    else processParts (f ++ t) (e ++ [f ++ t]) ts

/-- Processing of one successfully parsed record: run the part loop, then
record whether the finishReason was STOP. -/
def processRec (st : ScanSt) (r : GeminiRec) : ScanSt :=
  { buffer := st.buffer
    fullText := (processParts st.fullText st.emitted r.parts).1
    emitted := (processParts st.fullText st.emitted r.parts).2
    stopped := r.finishStop }

/-- The scanning while-loop of generateSummaryStream, fuel-indexed so the
recursion is structural. Per iteration: find the next opening brace, find
its matching close by brace counting, extract the span; a parse failure
advances startIndex one past the brace and retries; a parse success
processes the record, returns at once on STOP, and otherwise removes the
consumed span from the buffer and rescans from index zero. The fuel never
runs out when it exceeds twice the buffer length. -/
def scanLoopF (parse : List Nat → Option GeminiRec) :
    Nat → ScanSt → Nat → ScanSt
  | 0, st, _ => st
  | fuel + 1, st, startIndex =>
    if startIndex < st.buffer.length then
      match findBrace st.buffer startIndex with
      | none => st
      | some objStart =>
        match braceScan st.buffer objStart with
        | none => st
        | some objEnd =>
          match parse ((st.buffer.take objEnd).drop objStart) with
          | none => scanLoopF parse fuel st (objStart + 1)
          | some r =>
            if (processRec st r).stopped then processRec st r
            else
              scanLoopF parse fuel
                { buffer := (processRec st r).buffer.drop objEnd
                  fullText := (processRec st r).fullText
                  emitted := (processRec st r).emitted
                  stopped := (processRec st r).stopped } 0
    else st

/-- The scanning loop with always-sufficient fuel. -/
def scanLoop (parse : List Nat → Option GeminiRec) (st : ScanSt) (i : Nat) : ScanSt :=
  scanLoopF parse (2 * st.buffer.length + 1) st i

/-- Handling of one decoded chunk of text: append it to the buffer and run
the scanning loop from index zero; nothing happens after the session
returned on STOP. -/
def feedChunk (parse : List Nat → Option GeminiRec) (st : ScanSt) (c : List Nat) : ScanSt :=
  if st.stopped then st
  else scanLoop parse { st with buffer := st.buffer ++ c } 0

/-- The read loop of generateSummaryStream over the byte chunks of the
response body, threading the decoder carry-over and the scan state. -/
def runChunks (parse : List Nat → Option GeminiRec) :
    List Nat → ScanSt → List (List Nat) → ScanSt
  | _, st, [] => st
  | pending, st, c :: cs =>
    if st.stopped then st
    else
      runChunks parse (decodeStream (pending ++ c)).2
        (feedChunk parse st (decodeStream (pending ++ c)).1) cs

/-- The read-loop state before the first chunk. -/
def initSt : ScanSt := { buffer := [], fullText := [], emitted := [], stopped := false }

theorem getD_drop (l : List Nat) (i j : Nat) : (l.drop i).getD j 0 = l.getD (i + j) 0 := by
  simp [List.getD_eq_getElem?_getD, List.getElem?_drop]

theorem getD_append_left (l e : List Nat) (m : Nat) (h : m < l.length) :
    (l ++ e).getD m 0 = l.getD m 0 := by
  simp [List.getD_eq_getElem?_getD, List.getElem?_append_left h]

theorem idxAux_some_iff (t : Nat) (l : List Nat) : ∀ (i m : Nat),
    idxAux t l i = some m ↔
      ∃ k, m = i + k ∧ k < l.length ∧ l.getD k 0 = t ∧ ∀ q, q < k → l.getD q 0 ≠ t := by
  induction l with
  | nil => intro i m; simp [idxAux]
  | cons c rest ih =>
    intro i m
    by_cases h : c = t
    · rw [idxAux, if_pos h]
      constructor
      · intro hs
        have hm : i = m := by injection hs
        subst hm
        exact ⟨0, by omega, by simp, by simpa using h, fun q hq => absurd hq (by omega)⟩
      · rintro ⟨k, rfl, _, _, hmin⟩
        rcases Nat.eq_zero_or_pos k with rfl | hk
        · simp
        · have h0 := hmin 0 hk
          simp only [List.getD_cons_zero] at h0
          exact absurd h h0
    · rw [idxAux, if_neg h, ih (i + 1) m]
      constructor
      · rintro ⟨k, rfl, hlen, hg, hmin⟩
        refine ⟨k + 1, by omega, by simp; omega, by simpa using hg, ?_⟩
        intro q hq
        match q with
        | 0 => simpa using h
        | Nat.succ q2 => simpa using hmin q2 (by omega)
      · rintro ⟨k, hk, hlen, hg, hmin⟩
        match k with
        | 0 => simp only [List.getD_cons_zero] at hg; exact absurd hg h
        | Nat.succ k2 =>
          refine ⟨k2, by omega, by simp at hlen; omega, by simpa using hg, ?_⟩
          intro q hq
          simpa using hmin (q + 1) (by omega)

theorem idxAux_none_iff (t : Nat) (l : List Nat) : ∀ (i : Nat),
    idxAux t l i = none ↔ ∀ q, q < l.length → l.getD q 0 ≠ t := by
  induction l with
  | nil => intro i; simp [idxAux]
  | cons c rest ih =>
    intro i
    by_cases h : c = t
    · rw [idxAux, if_pos h]
      constructor
      · intro hs; cases hs
      · intro hall
        have h0 := hall 0 (by simp)
        simp only [List.getD_cons_zero] at h0
        exact absurd h h0
    · rw [idxAux, if_neg h, ih (i + 1)]
      constructor
      · intro hall q hq
        match q with
        | 0 => simpa using h
        | Nat.succ q2 => simpa using hall q2 (by simp at hq; omega)
      · intro hall q hq
        simpa using hall (q + 1) (by simp; omega)

theorem findBrace_some_iff (b : List Nat) (i j : Nat) :
    findBrace b i = some j ↔
      i ≤ j ∧ j < b.length ∧ b.getD j 0 = 123 ∧
        ∀ q, i ≤ q → q < j → b.getD q 0 ≠ 123 := by
  unfold findBrace
  rw [idxAux_some_iff]
  constructor
  · rintro ⟨k, rfl, hk, hg, hmin⟩
    rw [List.length_drop] at hk
    rw [getD_drop] at hg
    refine ⟨by omega, by omega, hg, ?_⟩
    intro q hq1 hq2
    have hx := hmin (q - i) (by omega)
    rw [getD_drop] at hx
    have heq : i + (q - i) = q := by omega
    rw [heq] at hx
    exact hx
  · rintro ⟨h1, h2, h3, h4⟩
    refine ⟨j - i, by omega, by rw [List.length_drop]; omega, ?_, ?_⟩
    · rw [getD_drop]
      have heq : i + (j - i) = j := by omega
      rw [heq]
      exact h3
    · intro q hq
      rw [getD_drop]
      exact h4 (i + q) (by omega) (by omega)

theorem findBrace_none_iff (b : List Nat) (i : Nat) :
    findBrace b i = none ↔ ∀ q, i ≤ q → q < b.length → b.getD q 0 ≠ 123 := by
  unfold findBrace
  rw [idxAux_none_iff]
  constructor
  · intro hall q hq1 hq2
    have hx := hall (q - i) (by rw [List.length_drop]; omega)
    rw [getD_drop] at hx
    have heq : i + (q - i) = q := by omega
    rw [heq] at hx
    exact hx
  · intro hall q hq
    rw [List.length_drop] at hq
    rw [getD_drop]
    exact hall (i + q) (by omega) (by omega)

theorem findBrace_append (b e : List Nat) (i j : Nat) (h : findBrace b i = some j) :
    findBrace (b ++ e) i = some j := by
  rw [findBrace_some_iff] at h ⊢
  obtain ⟨h1, h2, h3, h4⟩ := h
  refine ⟨h1, by rw [List.length_append]; omega, ?_, ?_⟩
  · rw [getD_append_left _ _ _ (by omega)]
    exact h3
  · intro q hq1 hq2
    rw [getD_append_left _ _ _ (by omega)]
    exact h4 q hq1 hq2

theorem braceAux_bounds (l : List Nat) : ∀ (i : Nat) (d : Int) (e : Nat),
    braceAux l i d = some e → i < e ∧ e ≤ i + l.length := by
  induction l with
  | nil => intro i d e h; simp [braceAux] at h
  | cons c rest ih =>
    intro i d e h
    rw [braceAux] at h
    by_cases h1 : c = 123
    · rw [if_pos h1] at h
      have := ih (i + 1) (d + 1) e h
      simp only [List.length_cons]
      omega
    · rw [if_neg h1] at h
      by_cases h2 : c = 125
      · rw [if_pos h2] at h
        by_cases h3 : d - 1 = 0
        · rw [if_pos h3] at h
          have he : i + 1 = e := by injection h
          simp only [List.length_cons]
          omega
        · rw [if_neg h3] at h
          have := ih (i + 1) (d - 1) e h
          simp only [List.length_cons]
          omega
      · rw [if_neg h2] at h
        have := ih (i + 1) d e h
        simp only [List.length_cons]
        omega

theorem braceAux_append (l x : List Nat) : ∀ (i : Nat) (d : Int) (e : Nat),
    braceAux l i d = some e → braceAux (l ++ x) i d = some e := by
  induction l with
  | nil => intro i d e h; simp [braceAux] at h
  | cons c rest ih =>
    intro i d e h
    rw [braceAux] at h
    rw [List.cons_append, braceAux]
    by_cases h1 : c = 123
    · rw [if_pos h1] at h ⊢
      exact ih (i + 1) (d + 1) e h
    · rw [if_neg h1] at h ⊢
      by_cases h2 : c = 125
      · rw [if_pos h2] at h ⊢
        by_cases h3 : d - 1 = 0
        · rw [if_pos h3] at h ⊢
          exact h
        · rw [if_neg h3] at h ⊢
          exact ih (i + 1) (d - 1) e h
      · rw [if_neg h2] at h ⊢
        exact ih (i + 1) d e h

theorem braceScan_bounds (b : List Nat) (s e : Nat) (h : braceScan b s = some e) :
    s < e ∧ e ≤ b.length := by
  unfold braceScan at h
  have hb := braceAux_bounds (b.drop s) s 0 e h
  by_cases hs : s ≤ b.length
  · rw [List.length_drop] at hb
    omega
  · have hnil : b.drop s = [] := by
      rw [List.drop_eq_nil_iff]
      omega
    rw [hnil] at h
    simp [braceAux] at h

theorem braceScan_append (b x : List Nat) (s e : Nat) (h : braceScan b s = some e) :
    braceScan (b ++ x) s = some e := by
  have hb := braceScan_bounds b s e h
  unfold braceScan at h ⊢
  rw [List.drop_append_of_le_length (by omega)]
  exact braceAux_append (b.drop s) x s 0 e h

theorem processRec_buffer (st : ScanSt) (r : GeminiRec) :
    (processRec st r).buffer = st.buffer := rfl

theorem processRec_stopped (st : ScanSt) (r : GeminiRec) :
    (processRec st r).stopped = r.finishStop := rfl

theorem scanLoopF_fuel (parse : List Nat → Option GeminiRec) (f1 : Nat) :
    ∀ (f2 : Nat) (st : ScanSt) (i : Nat),
      2 * st.buffer.length - i < f1 → 2 * st.buffer.length - i < f2 →
      scanLoopF parse f1 st i = scanLoopF parse f2 st i := by
  induction f1 with
  | zero => intro f2 st i h1 h2; omega
  | succ f1 ih =>
    intro f2 st i h1 h2
    match f2 with
    | 0 => omega
    | g + 1 =>
      rw [scanLoopF, scanLoopF]
      by_cases hguard : i < st.buffer.length
      · simp only [if_pos hguard]
        split
        · rfl
        next objStart hfb =>
          split
          · rfl
          next objEnd hbs =>
            split
            next hp =>
              have hge : i ≤ objStart := ((findBrace_some_iff _ _ _).mp hfb).1
              exact ih g st (objStart + 1) (by omega) (by omega)
            next r hp =>
              split
              · rfl
              next hstop =>
                have hob := braceScan_bounds st.buffer objStart objEnd hbs
                have hge : i ≤ objStart := ((findBrace_some_iff _ _ _).mp hfb).1
                apply ih g
                · rw [processRec_buffer, List.length_drop]
                  omega
                · rw [processRec_buffer, List.length_drop]
                  omega
      · simp only [if_neg hguard]

theorem scanLoop_eq (parse : List Nat → Option GeminiRec) (st : ScanSt) (i : Nat) :
    scanLoop parse st i =
      if i < st.buffer.length then
        match findBrace st.buffer i with
        | none => st
        | some objStart =>
          match braceScan st.buffer objStart with
          | none => st
          | some objEnd =>
            match parse ((st.buffer.take objEnd).drop objStart) with
            | none => scanLoop parse st (objStart + 1)
            | some r =>
              if (processRec st r).stopped then processRec st r
              else
                scanLoop parse
                  { buffer := (processRec st r).buffer.drop objEnd
                    fullText := (processRec st r).fullText
                    emitted := (processRec st r).emitted
                    stopped := (processRec st r).stopped } 0
      else st := by
  unfold scanLoop
  rw [scanLoopF]
  by_cases hguard : i < st.buffer.length
  · simp only [if_pos hguard]
    split
    · rfl
    next objStart hfb =>
      split
      · rfl
      next objEnd hbs =>
        split
        next hp =>
          have hge : i ≤ objStart := ((findBrace_some_iff _ _ _).mp hfb).1
          exact scanLoopF_fuel parse _ _ st (objStart + 1) (by omega) (by omega)
        next r hp =>
          split
          · rfl
          next hstop =>
            have hob := braceScan_bounds st.buffer objStart objEnd hbs
            have hge : i ≤ objStart := ((findBrace_some_iff _ _ _).mp hfb).1
            apply scanLoopF_fuel parse
            · rw [processRec_buffer, List.length_drop]
              omega
            · rw [processRec_buffer, List.length_drop]
              omega
  · simp only [if_neg hguard]

theorem scanLoop_guard (parse : List Nat → Option GeminiRec) (st : ScanSt) (i : Nat)
    (h : ¬ i < st.buffer.length) : scanLoop parse st i = st := by
  rw [scanLoop_eq]
  simp only [if_neg h]

theorem scanLoop_noBrace (parse : List Nat → Option GeminiRec) (st : ScanSt) (i : Nat)
    (hguard : i < st.buffer.length) (hfb : findBrace st.buffer i = none) :
    scanLoop parse st i = st := by
  rw [scanLoop_eq]
  simp only [if_pos hguard, hfb]

theorem scanLoop_noClose (parse : List Nat → Option GeminiRec) (st : ScanSt)
    (i objStart : Nat) (hguard : i < st.buffer.length)
    (hfb : findBrace st.buffer i = some objStart)
    (hbs : braceScan st.buffer objStart = none) :
    scanLoop parse st i = st := by
  rw [scanLoop_eq]
  simp only [if_pos hguard, hfb, hbs]

theorem scanLoop_parseFail (parse : List Nat → Option GeminiRec) (st : ScanSt)
    (i objStart objEnd : Nat) (hguard : i < st.buffer.length)
    (hfb : findBrace st.buffer i = some objStart)
    (hbs : braceScan st.buffer objStart = some objEnd)
    (hp : parse ((st.buffer.take objEnd).drop objStart) = none) :
    scanLoop parse st i = scanLoop parse st (objStart + 1) := by
  rw [scanLoop_eq]
  simp only [if_pos hguard, hfb, hbs, hp]

theorem scanLoop_parseStop (parse : List Nat → Option GeminiRec) (st : ScanSt)
    (i objStart objEnd : Nat) (r : GeminiRec) (hguard : i < st.buffer.length)
    (hfb : findBrace st.buffer i = some objStart)
    (hbs : braceScan st.buffer objStart = some objEnd)
    (hp : parse ((st.buffer.take objEnd).drop objStart) = some r)
    (hstop : (processRec st r).stopped = true) :
    scanLoop parse st i = processRec st r := by
  rw [scanLoop_eq]
  simp only [if_pos hguard, hfb, hbs, hp, hstop, if_true]

theorem scanLoop_parseCont (parse : List Nat → Option GeminiRec) (st : ScanSt)
    (i objStart objEnd : Nat) (r : GeminiRec) (hguard : i < st.buffer.length)
    (hfb : findBrace st.buffer i = some objStart)
    (hbs : braceScan st.buffer objStart = some objEnd)
    (hp : parse ((st.buffer.take objEnd).drop objStart) = some r)
    (hstop : (processRec st r).stopped = false) :
    scanLoop parse st i =
      scanLoop parse
        { buffer := (processRec st r).buffer.drop objEnd
          fullText := (processRec st r).fullText
          emitted := (processRec st r).emitted
          stopped := (processRec st r).stopped } 0 := by
  rw [scanLoop_eq]
  simp only [if_pos hguard, hfb, hbs, hp, hstop, Bool.false_eq_true, if_false]

/-- Invariant of the scanning loop: every opening brace strictly before the
current start index begins a balanced span whose parse failed. Such spans
are exactly the ones the loop skipped, and they keep failing when the
buffer is extended, which is why restarting the scan at index zero after a
new chunk behaves like continuing at the old index. -/
def Inv (parse : List Nat → Option GeminiRec) (b : List Nat) (j : Nat) : Prop :=
  ∀ q, q < j → b.getD q 0 = 123 →
    ∃ m, braceScan b q = some m ∧ parse ((b.take m).drop q) = none

theorem scanLoop_rescan (parse : List Nat → Option GeminiRec) (b ext : List Nat)
    (f : List Nat) (e : List (List Nat)) (j : Nat) (hj : j ≤ b.length)
    (hInv : Inv parse b j) :
    ∀ k, k ≤ j →
      scanLoop parse ⟨b ++ ext, f, e, false⟩ k = scanLoop parse ⟨b ++ ext, f, e, false⟩ j := by
  have H : ∀ (d k : Nat), k ≤ j → j - k = d →
      scanLoop parse ⟨b ++ ext, f, e, false⟩ k = scanLoop parse ⟨b ++ ext, f, e, false⟩ j := by
    intro d
    induction d using Nat.strong_induction_on with
    | _ d ih =>
      intro k hk hd
      rcases Nat.eq_or_lt_of_le hk with rfl | hlt
      · rfl
      · have hguard : k < ((⟨b ++ ext, f, e, false⟩ : ScanSt)).buffer.length := by
          show k < (b ++ ext).length
          rw [List.length_append]
          omega
        cases hfb : findBrace (b ++ ext) k with
        | none =>
          rw [scanLoop_noBrace parse _ k hguard hfb]
          by_cases hgj : j < (b ++ ext).length
          · have hfbj : findBrace (b ++ ext) j = none := by
              rw [findBrace_none_iff] at hfb ⊢
              intro q hq1 hq2
              exact hfb q (by omega) hq2
            rw [scanLoop_noBrace parse _ j hgj hfbj]
          · rw [scanLoop_guard parse _ j hgj]
        | some q =>
          have hcq := (findBrace_some_iff (b ++ ext) k q).mp hfb
          by_cases hqj : q < j
          · have hbq : b.getD q 0 = 123 := by
              have hg := hcq.2.2.1
              rwa [getD_append_left _ _ _ (by omega)] at hg
            rcases hInv q hqj hbq with ⟨m, hm, hpf⟩
            have hmb := braceScan_bounds b q m hm
            have hbse : braceScan (b ++ ext) q = some m := braceScan_append b ext q m hm
            have hspan : ((b ++ ext).take m).drop q = (b.take m).drop q := by
              rw [List.take_append_of_le_length (by omega)]
            rw [scanLoop_parseFail parse _ k q m hguard hfb hbse (by rw [hspan]; exact hpf)]
            exact ih (j - (q + 1)) (by omega) (q + 1) (by omega) rfl
          · have hgj : j < (b ++ ext).length := by
              have := hcq.2.1
              omega
            have hfbj : findBrace (b ++ ext) j = some q := by
              rw [findBrace_some_iff]
              refine ⟨by omega, hcq.2.1, hcq.2.2.1, ?_⟩
              intro q2 hq21 hq22
              exact hcq.2.2.2 q2 (by omega) hq22
            rw [scanLoop_eq parse _ k, scanLoop_eq parse _ j]
            simp only [if_pos hguard, if_pos hgj, hfb, hfbj]
  intro k hk
  exact H (j - k) k hk rfl

theorem scanLoop_extend (parse : List Nat → Option GeminiRec) :
    ∀ (n : Nat) (b : List Nat) (i : Nat) (f : List Nat) (e : List (List Nat)) (ext : List Nat),
      2 * b.length - i = n → Inv parse b i → i ≤ b.length →
      ((scanLoop parse ⟨b, f, e, false⟩ i).stopped = true →
        scanLoop parse ⟨b ++ ext, f, e, false⟩ i =
          ⟨(scanLoop parse ⟨b, f, e, false⟩ i).buffer ++ ext,
            (scanLoop parse ⟨b, f, e, false⟩ i).fullText,
            (scanLoop parse ⟨b, f, e, false⟩ i).emitted, true⟩) ∧
      ((scanLoop parse ⟨b, f, e, false⟩ i).stopped = false →
        scanLoop parse ⟨b ++ ext, f, e, false⟩ i =
          scanLoop parse ⟨(scanLoop parse ⟨b, f, e, false⟩ i).buffer ++ ext,
            (scanLoop parse ⟨b, f, e, false⟩ i).fullText,
            (scanLoop parse ⟨b, f, e, false⟩ i).emitted, false⟩ 0) := by
  intro n
  induction n using Nat.strong_induction_on with
  | _ n ih =>
    intro b i f e ext hn hInv hi
    by_cases hguard : i < b.length
    · cases hfb : findBrace b i with
      | none =>
        have hb : scanLoop parse ⟨b, f, e, false⟩ i = ⟨b, f, e, false⟩ :=
          scanLoop_noBrace parse _ i hguard hfb
        rw [hb]
        constructor
        · intro hst
          simp at hst
        · intro hst2
          exact (scanLoop_rescan parse b ext f e i hi hInv 0 (by omega)).symm
      | some objStart =>
        cases hbs : braceScan b objStart with
        | none =>
          have hb : scanLoop parse ⟨b, f, e, false⟩ i = ⟨b, f, e, false⟩ :=
            scanLoop_noClose parse _ i objStart hguard hfb hbs
          rw [hb]
          constructor
          · intro hst
            simp at hst
          · intro hst2
            exact (scanLoop_rescan parse b ext f e i hi hInv 0 (by omega)).symm
        | some objEnd =>
          have hcfb := (findBrace_some_iff b i objStart).mp hfb
          have hcbs := braceScan_bounds b objStart objEnd hbs
          have hfbE : findBrace (b ++ ext) i = some objStart :=
            findBrace_append b ext i objStart hfb
          have hbsE : braceScan (b ++ ext) objStart = some objEnd :=
            braceScan_append b ext objStart objEnd hbs
          have hspan : ((b ++ ext).take objEnd).drop objStart = (b.take objEnd).drop objStart := by
            rw [List.take_append_of_le_length (by omega)]
          have hguardE : i < ((⟨b ++ ext, f, e, false⟩ : ScanSt)).buffer.length := by
            show i < (b ++ ext).length
            rw [List.length_append]
            omega
          cases hp : parse ((b.take objEnd).drop objStart) with
          | none =>
            have hInv2 : Inv parse b (objStart + 1) := by
              intro q hq hbq
              by_cases hqi : q < i
              · exact hInv q hqi hbq
              · by_cases hqo : q = objStart
                · subst hqo
                  exact ⟨objEnd, hbs, hp⟩
                · exact absurd hbq (hcfb.2.2.2 q (by omega) (by omega))
            have hstepB : scanLoop parse ⟨b, f, e, false⟩ i =
                scanLoop parse ⟨b, f, e, false⟩ (objStart + 1) :=
              scanLoop_parseFail parse _ i objStart objEnd hguard hfb hbs hp
            have hstepE : scanLoop parse ⟨b ++ ext, f, e, false⟩ i =
                scanLoop parse ⟨b ++ ext, f, e, false⟩ (objStart + 1) :=
              scanLoop_parseFail parse _ i objStart objEnd hguardE hfbE hbsE
                (by rw [hspan]; exact hp)
            rw [hstepB, hstepE]
            exact ih (2 * b.length - (objStart + 1)) (by omega) b (objStart + 1) f e ext rfl
              hInv2 (by omega)
          | some r =>
            by_cases hstop : r.finishStop = true
            · have hstopB : (processRec (⟨b, f, e, false⟩ : ScanSt) r).stopped = true := by
                rw [processRec_stopped]
                exact hstop
              have hstopE : (processRec (⟨b ++ ext, f, e, false⟩ : ScanSt) r).stopped = true := by
                rw [processRec_stopped]
                exact hstop
              have hB := scanLoop_parseStop parse _ i objStart objEnd r hguard hfb hbs hp hstopB
              have hE := scanLoop_parseStop parse _ i objStart objEnd r hguardE hfbE hbsE
                (by rw [hspan]; exact hp) hstopE
              rw [hB, hE]
              constructor
              · intro hst
                simp [processRec, hstop]
              · intro hst2
                rw [hstopB] at hst2
                cases hst2
            · have hstopf : r.finishStop = false := eq_false_of_ne_true hstop
              have hstopB : (processRec (⟨b, f, e, false⟩ : ScanSt) r).stopped = false := by
                rw [processRec_stopped]
                exact hstopf
              have hstopE : (processRec (⟨b ++ ext, f, e, false⟩ : ScanSt) r).stopped = false := by
                rw [processRec_stopped]
                exact hstopf
              have hB := scanLoop_parseCont parse _ i objStart objEnd r hguard hfb hbs hp hstopB
              have hE := scanLoop_parseCont parse _ i objStart objEnd r hguardE hfbE hbsE
                (by rw [hspan]; exact hp) hstopE
              have hFT : (processRec (⟨b ++ ext, f, e, false⟩ : ScanSt) r).fullText =
                  (processRec (⟨b, f, e, false⟩ : ScanSt) r).fullText := rfl
              have hEM : (processRec (⟨b ++ ext, f, e, false⟩ : ScanSt) r).emitted =
                  (processRec (⟨b, f, e, false⟩ : ScanSt) r).emitted := rfl
              rw [hB, hE, hFT, hEM, hstopB, hstopE, processRec_buffer, processRec_buffer]
              have hdropE : (b ++ ext).drop objEnd = b.drop objEnd ++ ext :=
                List.drop_append_of_le_length (by omega)
              rw [hdropE]
              have hInv0 : Inv parse (b.drop objEnd) 0 := by
                intro q hq
                omega
              exact ih (2 * (b.drop objEnd).length - 0)
                (by rw [List.length_drop]; omega) (b.drop objEnd) 0
                (processRec (⟨b, f, e, false⟩ : ScanSt) r).fullText
                (processRec (⟨b, f, e, false⟩ : ScanSt) r).emitted ext rfl hInv0 (by omega)
    · have hieq : i = b.length ∨ b.length < i := by omega
      have hb : scanLoop parse ⟨b, f, e, false⟩ i = ⟨b, f, e, false⟩ :=
        scanLoop_guard parse _ i (by simpa using hguard)
      rw [hb]
      constructor
      · intro hst
        simp at hst
      · intro hst2
        exact (scanLoop_rescan parse b ext f e i hi hInv 0 (by omega)).symm

/-- Observable equivalence of two loop states: equal accumulated text,
equal emission history and equal stop flag; buffers must agree only while
the session is still live (after the STOP return the buffer is dead
state). -/
def obsEq (s1 s2 : ScanSt) : Prop :=
  s1.fullText = s2.fullText ∧ s1.emitted = s2.emitted ∧ s1.stopped = s2.stopped ∧
    (s1.stopped = false → s1.buffer = s2.buffer)

theorem obsEq_refl (s : ScanSt) : obsEq s s := ⟨rfl, rfl, rfl, fun _ => rfl⟩

theorem obsEq_trans (a b c : ScanSt) (h1 : obsEq a b) (h2 : obsEq b c) : obsEq a c := by
  obtain ⟨hf1, he1, hs1, hb1⟩ := h1
  obtain ⟨hf2, he2, hs2, hb2⟩ := h2
  refine ⟨hf1.trans hf2, he1.trans he2, hs1.trans hs2, ?_⟩
  intro hfalse
  rw [hb1 hfalse, hb2 (by rw [← hs1]; exact hfalse)]

theorem feedChunk_stopped (parse : List Nat → Option GeminiRec) (st : ScanSt)
    (c : List Nat) (hst : st.stopped = true) : feedChunk parse st c = st := by
  unfold feedChunk
  rw [hst]
  simp

theorem feedChunk_live (parse : List Nat → Option GeminiRec) (st : ScanSt)
    (c : List Nat) (hst : st.stopped = false) :
    feedChunk parse st c =
      scanLoop parse ⟨st.buffer ++ c, st.fullText, st.emitted, false⟩ 0 := by
  obtain ⟨bb, ff, ee, ss⟩ := st
  simp only [] at hst
  subst hst
  simp [feedChunk]

theorem feedChunk_congr (parse : List Nat → Option GeminiRec) (s1 s2 : ScanSt)
    (c : List Nat) (h : obsEq s1 s2) : obsEq (feedChunk parse s1 c) (feedChunk parse s2 c) := by
  obtain ⟨hf, he, hs, hb⟩ := h
  cases hst : s1.stopped with
  | true =>
    rw [feedChunk_stopped parse s1 c hst, feedChunk_stopped parse s2 c (by rw [← hs]; exact hst)]
    exact ⟨hf, he, hs, hb⟩
  | false =>
    have heq : s1 = s2 := by
      obtain ⟨b1, f1, e1, t1⟩ := s1
      obtain ⟨b2, f2, e2, t2⟩ := s2
      simp only [] at hf he hs hb hst
      subst hf
      subst he
      subst hs
      subst hst
      rw [hb rfl]
    rw [heq]
    exact obsEq_refl _

theorem feedChunk_comp (parse : List Nat → Option GeminiRec) (st : ScanSt)
    (c1 c2 : List Nat) :
    obsEq (feedChunk parse (feedChunk parse st c1) c2) (feedChunk parse st (c1 ++ c2)) := by
  cases hst : st.stopped with
  | true =>
    rw [feedChunk_stopped parse st c1 hst, feedChunk_stopped parse st (c1 ++ c2) hst,
      feedChunk_stopped parse st c2 hst]
    exact obsEq_refl st
  | false =>
    rw [feedChunk_live parse st c1 hst, feedChunk_live parse st (c1 ++ c2) hst]
    have hInv0 : Inv parse (st.buffer ++ c1) 0 := by
      intro q hq
      omega
    have hext := scanLoop_extend parse (2 * (st.buffer ++ c1).length - 0) (st.buffer ++ c1) 0
      st.fullText st.emitted c2 rfl hInv0 (by omega)
    have hassoc : st.buffer ++ (c1 ++ c2) = (st.buffer ++ c1) ++ c2 :=
      (List.append_assoc st.buffer c1 c2).symm
    rw [hassoc]
    cases hrs : (scanLoop parse ⟨st.buffer ++ c1, st.fullText, st.emitted, false⟩ 0).stopped with
    | true =>
      rw [hext.1 hrs,
        feedChunk_stopped parse (scanLoop parse ⟨st.buffer ++ c1, st.fullText, st.emitted, false⟩ 0) c2 hrs]
      exact ⟨rfl, rfl, hrs.symm ▸ rfl, fun hcontra => by rw [hrs] at hcontra; cases hcontra⟩
    | false =>
      rw [hext.2 hrs,
        feedChunk_live parse (scanLoop parse ⟨st.buffer ++ c1, st.fullText, st.emitted, false⟩ 0) c2 hrs]
      exact obsEq_refl _

theorem runChunks_obs (parse : List Nat → Option GeminiRec) :
    ∀ (cs : List (List Nat)), cs ≠ [] → ∀ (pending : List Nat) (st : ScanSt),
      obsEq (runChunks parse pending st cs)
        (feedChunk parse st (decodeStream (pending ++ cs.flatten)).1) := by
  intro cs
  induction cs with
  | nil => intro h; exact absurd rfl h
  | cons c cs ih =>
    intro _ pending st
    cases hst : st.stopped with
    | true =>
      rw [runChunks]
      rw [if_pos hst, feedChunk_stopped parse st _ hst]
      exact obsEq_refl st
    | false =>
      rw [runChunks, if_neg (by rw [hst]; simp)]
      cases cs with
      | nil =>
        rw [runChunks]
        simp only [List.flatten_cons, List.flatten_nil, List.append_nil]
        exact obsEq_refl _
      | cons c2 cs2 =>
        have hne : c2 :: cs2 ≠ [] := by simp
        have h1 := ih hne (decodeStream (pending ++ c)).2
          (feedChunk parse st (decodeStream (pending ++ c)).1)
        have h2 := feedChunk_comp parse st (decodeStream (pending ++ c)).1
          (decodeStream ((decodeStream (pending ++ c)).2 ++ (c2 :: cs2).flatten)).1
        have h3 : (decodeStream (pending ++ c)).1 ++
            (decodeStream ((decodeStream (pending ++ c)).2 ++ (c2 :: cs2).flatten)).1 =
            (decodeStream (pending ++ (c :: c2 :: cs2).flatten)).1 := by
          have hd := decodeStream_append (pending ++ c) ((c2 :: cs2).flatten)
          have hj : (pending ++ c) ++ (c2 :: cs2).flatten = pending ++ (c :: c2 :: cs2).flatten := by
            rw [List.append_assoc]
            simp [List.flatten_cons]
          rw [hj] at hd
          rw [hd]
        rw [h3] at h2
        exact obsEq_trans _ _ _ h1 h2

theorem runChunks_single (parse : List Nat → Option GeminiRec)
    (css : List (List Nat)) (h : css ≠ []) :
    obsEq (runChunks parse [] initSt css) (runChunks parse [] initSt [css.flatten]) := by
  have h1 := runChunks_obs parse css h [] initSt
  have h2 := runChunks_obs parse [css.flatten] (by simp) [] initSt
  have hj : ([css.flatten] : List (List Nat)).flatten = css.flatten := by simp
  rw [hj] at h2
  refine obsEq_trans _ _ _ h1 ?_
  obtain ⟨hf, he, hs, hb⟩ := h2
  exact ⟨hf.symm, he.symm, hs.symm, fun hfalse => (hb (by rw [hs]; exact hfalse)).symm⟩

/-- One snapshot extends another by appended text. -/
def appendsTo (a b : List Nat) : Prop := ∃ s, b = a ++ s

theorem processParts_nil (f : List Nat) (e : List (List Nat)) :
    processParts f e [] = (f, e) := rfl

theorem processParts_cons (f : List Nat) (e : List (List Nat)) (t : List Nat)
    (ts : List (List Nat)) :
    processParts f e (t :: ts) =
      if t.isEmpty then processParts f e ts
      else processParts (f ++ t) (e ++ [f ++ t]) ts := rfl

theorem processParts_chain (parts : List (List Nat)) : ∀ (f : List Nat) (e : List (List Nat)),
    List.Chain' appendsTo (e ++ [f]) →
    List.Chain' appendsTo ((processParts f e parts).2 ++ [(processParts f e parts).1]) := by
  induction parts with
  | nil => intro f e h; exact h
  | cons t ts ih =>
    intro f e h
    rw [processParts_cons]
    by_cases ht : t.isEmpty
    · rw [if_pos ht]
      exact ih f e h
    · rw [if_neg ht]
      apply ih
      rcases List.chain'_append.mp h with ⟨he, _, hlink⟩
      have hassoc : (e ++ [f ++ t]) ++ [f ++ t] = e ++ [f ++ t, f ++ t] := by simp
      rw [hassoc]
      apply List.chain'_append.mpr
      refine ⟨he, ?_, ?_⟩
      · refine List.chain'_cons.mpr ⟨⟨[], by simp⟩, List.chain'_singleton _⟩
      · intro x hx y hy
        simp only [List.head?_cons, Option.mem_def, Option.some.injEq] at hy
        subst hy
        have hex : appendsTo x f := hlink x hx f (by simp)
        rcases hex with ⟨s, rfl⟩
        exact ⟨s ++ t, by simp⟩

theorem scanLoopF_chain (parse : List Nat → Option GeminiRec) (fuel : Nat) :
    ∀ (st : ScanSt) (i : Nat),
      List.Chain' appendsTo (st.emitted ++ [st.fullText]) →
      List.Chain' appendsTo
        ((scanLoopF parse fuel st i).emitted ++ [(scanLoopF parse fuel st i).fullText]) := by
  induction fuel with
  | zero => intro st i h; exact h
  | succ fuel ih =>
    intro st i h
    rw [scanLoopF]
    by_cases hguard : i < st.buffer.length
    · simp only [if_pos hguard]
      split
      · exact h
      next objStart hfb =>
        split
        · exact h
        next objEnd hbs =>
          split
          next hp => exact ih st (objStart + 1) h
          next r hp =>
            split
            · exact processParts_chain r.parts st.fullText st.emitted h
            next hstop =>
              apply ih
              exact processParts_chain r.parts st.fullText st.emitted h
    · simp only [if_neg hguard]
      exact h

theorem feedChunk_chain (parse : List Nat → Option GeminiRec) (st : ScanSt) (c : List Nat)
    (h : List.Chain' appendsTo (st.emitted ++ [st.fullText])) :
    List.Chain' appendsTo
      ((feedChunk parse st c).emitted ++ [(feedChunk parse st c).fullText]) := by
  cases hst : st.stopped with
  | true => rw [feedChunk_stopped parse st c hst]; exact h
  | false =>
    rw [feedChunk_live parse st c hst]
    exact scanLoopF_chain parse _ _ 0 h

theorem runChunks_chain (parse : List Nat → Option GeminiRec) (cs : List (List Nat)) :
    ∀ (pending : List Nat) (st : ScanSt),
      List.Chain' appendsTo (st.emitted ++ [st.fullText]) →
      List.Chain' appendsTo
        ((runChunks parse pending st cs).emitted ++ [(runChunks parse pending st cs).fullText]) := by
  induction cs with
  | nil => intro pending st h; exact h
  | cons c cs ih =>
    intro pending st h
    rw [runChunks]
    by_cases hst : st.stopped = true
    · rw [if_pos hst]
      exact h
    · rw [if_neg hst]
      exact ih _ _ (feedChunk_chain parse st _ h)

/-- Concrete streamed record of the Gemini shape whose only part text is
HEADLINE: A long headline; JSON.parse of this span yields that text. -/
def spanA : List Nat :=
  cp "\x7b\"candidates\": [\x7b\"content\": \x7b\"parts\": [\x7b\"text\": \"HEADLINE: A long headline\"\x7d]\x7d\x7d]\x7d"

/-- Concrete streamed record whose only part text is a newline followed by
SUMMARY: Hi (the two-character JSON escape backslash-n denotes the
newline). -/
def spanB : List Nat :=
  cp "\x7b\"candidates\": [\x7b\"content\": \x7b\"parts\": [\x7b\"text\": \"\\nSUMMARY: Hi\"\x7d]\x7d\x7d]\x7d"

/-- Concrete instantiation of the JSON.parse oracle on the two spans above,
agreeing with what JSON.parse returns on them and undefined (failing)
elsewhere. -/
def jsonOracle (s : List Nat) : Option GeminiRec :=
  if s = spanA then some { parts := [cp "HEADLINE: A long headline"], finishStop := false }
  else if s = spanB then some { parts := [cp "\nSUMMARY: Hi"], finishStop := false }
  else none

/-- Transport-level inputs of one generateSummaryStream invocation. -/
structure StreamInput where
  fetchRejects : Bool
  ok : Bool
  readerPresent : Bool
  chunks : List (List Nat)
  midErr : Bool
  jsonText : Option (List Nat)
  fallbackText : Option (List Nat)
deriving Repr

/-- The two error values the subject can terminate with: the invalid
response error of the no-reader path, and the error of a failed fallback
generateSummary call (the transport error itself is logged and discarded
by the catch handler, never surfaced). -/
inductive StreamErr where
  | invalidResponse
  | fallbackFailed
deriving DecidableEq, Repr

/-- Terminal signal of the observable sequence. -/
inductive Terminal where
  | complete
  | errored (e : StreamErr)
deriving DecidableEq, Repr

/-- Observable outcome of one generateSummaryStream invocation: the records
passed to subject.next in order, the terminal signal, and how many times
the non-streaming generateSummary fallback was invoked. -/
structure RunOut where
  emitted : List SummaryRec
  term : Terminal
  fallbackCalls : Nat
deriving DecidableEq, Repr

/-- The catch handler of generateSummaryStream: one generateSummary call;
on success its single parsed record is emitted and the subject completes,
otherwise the fallback error is surfaced. -/
def fallbackRun (inp : StreamInput) : RunOut :=
  match inp.fallbackText with
  | some t => { emitted := [parseSummaryResponse t], term := .complete, fallbackCalls := 1 }
  | none => { emitted := [], term := .errored .fallbackFailed, fallbackCalls := 1 }

/-- Embedding of the control flow of generateSummaryStream around the read
loop: a rejected fetch or a non-ok response throws into the catch handler
(fallback); an ok response without a readable body is answered from
response.json() inline without any second request; otherwise the chunk
loop runs, a STOP record completes at once, a read rejection after the
delivered chunks propagates to the catch handler (fallback) even when
records were already emitted, and an orderly end of stream completes. -/
def runStream (parse : List Nat → Option GeminiRec) (inp : StreamInput) : RunOut :=
  if inp.fetchRejects then fallbackRun inp
  else if !inp.ok then fallbackRun inp
  else if !inp.readerPresent then
    match inp.jsonText with
    | some t => { emitted := [parseSummaryResponse t], term := .complete, fallbackCalls := 0 }
    | none => { emitted := [], term := .errored .invalidResponse, fallbackCalls := 0 }
  else
    if (runChunks parse [] initSt inp.chunks).stopped then
      { emitted := (runChunks parse [] initSt inp.chunks).emitted.map parseSummaryResponse,
        term := .complete, fallbackCalls := 0 }
    else if inp.midErr then
      { emitted := (runChunks parse [] initSt inp.chunks).emitted.map parseSummaryResponse ++
          (fallbackRun inp).emitted,
        term := (fallbackRun inp).term, fallbackCalls := (fallbackRun inp).fallbackCalls }
    else
      { emitted := (runChunks parse [] initSt inp.chunks).emitted.map parseSummaryResponse,
        term := .complete, fallbackCalls := 0 }

/-- One transcript unit as consumed by the prompt builders. -/
structure TranscriptItem where
  text : String
  startMs : String
  endMs : String
  startTimeText : String

/-- Array.prototype.join with a separator. -/
def joinSep (sep : String) : List String → String
  | [] => ""
  | [x] => x
  | x :: xs => x ++ sep ++ joinSep sep xs

/-- Prompt construction of the non-streaming generateSummary. -/
def generateSummaryPrompt (transcript : List TranscriptItem) (lengthPercentage : Nat)
    (style : String) : String :=
  let fullText := joinSep " " (transcript.map (fun item => item.text))
  let transcriptWithTimestamps :=
    joinSep "\n" (transcript.map (fun item => "[" ++ item.startTimeText ++ "] " ++ item.text))
  let styleInstruction :=
    if style = "bullets" then
      "Format the summary as bullet points, with each main point on a new line starting with •"
    else if style = "timestamp" then
      "Format the summary with timestamps from the transcript. Include the timestamp in [HH:MM] format before each key point."
    else
      "Format the summary as a cohesive essay with paragraphs."
  let transcriptText := if style = "timestamp" then transcriptWithTimestamps else fullText
  "You are a neutral transcription summarizer. Your task is to create an objective summary of the following YouTube video transcript.\n\nCRITICAL INSTRUCTIONS:\n- Provide ONLY a factual, neutral summary of what was said in the transcript\n- Do NOT add your own opinions, perspectives, analysis, or conclusions\n- Do NOT interpret, judge, or evaluate the content\n- Simply summarize what was actually said, without commentary\n- Maintain complete objectivity and neutrality\n\nREQUIREMENTS:\n1. First, generate a concise headline (maximum 80 characters) that summarizes the main topic\n2. Then provide a summary that is approximately " ++
    toString lengthPercentage ++
    "% of the original transcript length\n3. " ++ styleInstruction ++
    "\n\nFormat your response EXACTLY as follows:\nHEADLINE: [Your headline here]\n\nSUMMARY:\n[Your summary here]\n\nTranscript:\n" ++
    transcriptText

/-- Prompt construction of the streaming generateSummaryStream. -/
def generateSummaryStreamPrompt (transcript : List TranscriptItem) (lengthPercentage : Nat)
    (style : String) : String :=
  let fullText := joinSep " " (transcript.map (fun item => item.text))
  let transcriptWithTimestamps :=
    joinSep "\n" (transcript.map (fun item => "[" ++ item.startTimeText ++ "] " ++ item.text))
  let styleInstruction :=
    if style = "bullets" then
      "Format the summary as bullet points, with each main point on a new line starting with •"
    else if style = "timestamp" then
      "Format the summary with timestamps from the transcript. Include the timestamp in [HH:MM] format before each key point."
    else
      "Format the summary as a cohesive essay with paragraphs."
  let transcriptText := if style = "timestamp" then transcriptWithTimestamps else fullText
  "You are a neutral transcription summarizer. Your task is to create an objective summary of the following YouTube video transcript.\n\nCRITICAL INSTRUCTIONS:\n- Provide ONLY a factual, neutral summary of what was said in the transcript\n- Do NOT add your own opinions, perspectives, analysis, or conclusions\n- Do NOT interpret, judge, or evaluate the content\n- Simply summarize what was actually said, without commentary\n- Maintain complete objectivity and neutrality\n\nREQUIREMENTS:\n1. First, generate a concise headline (maximum 80 characters) that summarizes the main topic\n2. Then provide a summary that is approximately " ++
    toString lengthPercentage ++
    "% of the original transcript length\n3. " ++ styleInstruction ++
    "\n\nFormat your response EXACTLY as follows:\nHEADLINE: [Your headline here]\n\nSUMMARY:\n[Your summary here]\n\nTranscript:\n" ++
    transcriptText

/-- C1: for every behaviour of JSON.parse and every non-empty partition of
the response body bytes into chunks — including partitions that split a
multi-byte character or a JSON record across a chunk boundary — the read
loop of generateSummaryStream accumulates the same final full text, and
derives from it the same final ResultRecord, as when the entire body is
delivered as a single chunk. -/
theorem C1_chunk_invariance (parse : List Nat → Option GeminiRec)
    (css : List (List Nat)) (h : css ≠ []) :
    (runChunks parse [] initSt css).fullText =
        (runChunks parse [] initSt [css.flatten]).fullText ∧
      parseSummaryResponse ((runChunks parse [] initSt css).fullText) =
        parseSummaryResponse ((runChunks parse [] initSt [css.flatten]).fullText) := by
  have h1 := runChunks_single parse css h
  exact ⟨h1.1, by rw [h1.1]⟩

/-- C1 witness: a concrete partition that splits the first JSON record after
ten bytes and splits a two-byte UTF-8 character across the last two
chunks. -/
theorem C1_chunk_invariance_witness :
    ([spanA.take 10, spanA.drop 10 ++ spanB, [195], [169]] : List (List Nat)) ≠ [] ∧
    ((runChunks jsonOracle [] initSt [spanA.take 10, spanA.drop 10 ++ spanB, [195], [169]]).fullText =
        (runChunks jsonOracle [] initSt
          [[spanA.take 10, spanA.drop 10 ++ spanB, [195], [169]].flatten]).fullText ∧
      parseSummaryResponse ((runChunks jsonOracle [] initSt
          [spanA.take 10, spanA.drop 10 ++ spanB, [195], [169]]).fullText) =
        parseSummaryResponse ((runChunks jsonOracle [] initSt
          [[spanA.take 10, spanA.drop 10 ++ spanB, [195], [169]].flatten]).fullText)) :=
  ⟨by decide, C1_chunk_invariance jsonOracle [spanA.take 10, spanA.drop 10 ++ spanB, [195], [169]]
    (by decide)⟩

/-- C2 counterexample: a streaming session whose first record carries the
headline text and whose second record brings the SUMMARY marker emits a
first summary of length 25 and then a second summary of length 2 — the
emitted summary lengths are not non-decreasing, and the second emission is
not an append-extension of the first. -/
theorem C2_counterexample :
    ((runStream jsonOracle
        { fetchRejects := false, ok := true, readerPresent := true,
          chunks := [spanA, spanB], midErr := false, jsonText := none,
          fallbackText := none }).emitted.map (fun r => r.summary.length)) = [25, 2] ∧
      (2 : Nat) < 25 := by
  constructor
  · decide
  · decide

/-- C2 as amended: within one streaming session the underlying accumulated
full text of consecutive emissions grows by appended text, and the emitted
summary length is non-decreasing from any emission whose snapshot already
matches the SUMMARY capture; when the marker first appears the summary may
contract to the text after the marker. -/
theorem C2_amended_monotonicity (parse : List Nat → Option GeminiRec)
    (css : List (List Nat)) :
    List.Chain' (fun t1 t2 =>
      (∃ s, t2 = t1 ++ s) ∧
      ((∃ j, findSm t1 = some j) →
        (parseSummaryResponse t1).summary.length ≤ (parseSummaryResponse t2).summary.length))
      ((runChunks parse [] initSt css).emitted) := by
  have h := runChunks_chain parse css [] initSt (by
    show List.Chain' appendsTo ([] ++ [[]])
    simp)
  have h2 := (List.chain'_append.mp h).1
  refine List.Chain'.imp ?_ h2
  intro a b hab
  refine ⟨hab, ?_⟩
  rintro ⟨j, hj⟩
  rcases hab with ⟨s, rfl⟩
  exact summary_len_mono a s j hj

/-- C3: on a transport-level failure before any record has been emitted — a
rejected fetch, a non-ok response status, or a read failure before any
emission — exactly one non-streaming fallback request is made with the same
prompt construction; if the fallback succeeds exactly one ResultRecord is
emitted followed by completion, and an error is surfaced only when the
fallback itself fails. -/
theorem C3_prefailure_fallback (parse : List Nat → Option GeminiRec) (inp : StreamInput)
    (h : inp.fetchRejects = true ∨ inp.ok = false ∨
      (inp.fetchRejects = false ∧ inp.ok = true ∧ inp.readerPresent = true ∧
        inp.midErr = true ∧
        (runChunks parse [] initSt inp.chunks).emitted = [] ∧
        (runChunks parse [] initSt inp.chunks).stopped = false)) :
    (runStream parse inp).fallbackCalls = 1 ∧
    (∀ t, inp.fallbackText = some t →
      (runStream parse inp).emitted = [parseSummaryResponse t] ∧
      (runStream parse inp).term = Terminal.complete) ∧
    (inp.fallbackText = none →
      (runStream parse inp).emitted = [] ∧
      (runStream parse inp).term = Terminal.errored StreamErr.fallbackFailed) ∧
    (∀ (tr : List TranscriptItem) (lp : Nat) (sty : String),
      generateSummaryStreamPrompt tr lp sty = generateSummaryPrompt tr lp sty) := by
  have hout : runStream parse inp = fallbackRun inp := by
    rcases h with h1 | h1 | ⟨hf, ho, hr, hm, hemp, hns⟩
    · simp [runStream, h1]
    · simp [runStream, h1]
    · simp [runStream, hf, ho, hr, hm, hns, hemp]
  rw [hout]
  refine ⟨?_, ?_, ?_, ?_⟩
  · cases hft : inp.fallbackText <;> simp [fallbackRun, hft]
  · intro t hft
    simp [fallbackRun, hft]
  · intro hft
    simp [fallbackRun, hft]
  · intro tr lp sty
    rfl

/-- Concrete input of a non-ok response with a succeeding fallback. -/
def inpC3 : StreamInput :=
  { fetchRejects := false, ok := false, readerPresent := true, chunks := [],
    midErr := false, jsonText := none,
    fallbackText := some (cp "HEADLINE: T\n\nSUMMARY:\nBody.") }

/-- C3 witness: a concrete non-ok response with a succeeding fallback. -/
theorem C3_prefailure_fallback_witness :
    (inpC3.ok = false) ∧
    ((runStream jsonOracle inpC3).fallbackCalls = 1 ∧
      (∀ t, inpC3.fallbackText = some t →
        (runStream jsonOracle inpC3).emitted = [parseSummaryResponse t] ∧
        (runStream jsonOracle inpC3).term = Terminal.complete) ∧
      (inpC3.fallbackText = none →
        (runStream jsonOracle inpC3).emitted = [] ∧
        (runStream jsonOracle inpC3).term = Terminal.errored StreamErr.fallbackFailed) ∧
      (∀ (tr : List TranscriptItem) (lp : Nat) (sty : String),
        generateSummaryStreamPrompt tr lp sty = generateSummaryPrompt tr lp sty)) :=
  ⟨rfl, C3_prefailure_fallback jsonOracle inpC3 (Or.inr (Or.inl rfl))⟩

/-- Concrete input of a mid-stream failure after one successful emission,
with a succeeding fallback. -/
def inpC4 : StreamInput :=
  { fetchRejects := false, ok := true, readerPresent := true, chunks := [spanA],
    midErr := true, jsonText := none,
    fallbackText := some (cp "HEADLINE: X\n\nSUMMARY:\nFull fallback summary.") }

/-- C4 counterexample: after one record has already been emitted, a
subsequent read failure does start the single-shot fallback request
(one fallback call, not zero), and since the fallback succeeds the session
completes without surfacing any error — against the claim that no second
request is attempted and that the error is surfaced. -/
theorem C4_counterexample :
    1 ≤ (runChunks jsonOracle [] initSt inpC4.chunks).emitted.length ∧
    (runStream jsonOracle inpC4).fallbackCalls = 1 ∧
    (runStream jsonOracle inpC4).term = Terminal.complete := by
  refine ⟨by decide, by decide, by decide⟩

/-- C4 as amended: a failure after at least one emission also routes to the
single fallback request; the already-emitted partial records stay emitted,
on fallback success its complete record is emitted after them and the
session completes, and the error is surfaced only when the fallback also
fails. -/
theorem C4_amended_fallback (parse : List Nat → Option GeminiRec) (inp : StreamInput)
    (hf : inp.fetchRejects = false) (ho : inp.ok = true) (hr : inp.readerPresent = true)
    (hm : inp.midErr = true)
    (hns : (runChunks parse [] initSt inp.chunks).stopped = false) :
    (runStream parse inp).fallbackCalls = 1 ∧
    (∀ t, inp.fallbackText = some t →
      (runStream parse inp).emitted =
        (runChunks parse [] initSt inp.chunks).emitted.map parseSummaryResponse ++
          [parseSummaryResponse t] ∧
      (runStream parse inp).term = Terminal.complete) ∧
    (inp.fallbackText = none →
      (runStream parse inp).emitted =
        (runChunks parse [] initSt inp.chunks).emitted.map parseSummaryResponse ∧
      (runStream parse inp).term = Terminal.errored StreamErr.fallbackFailed) := by
  have hout : runStream parse inp =
      { emitted := (runChunks parse [] initSt inp.chunks).emitted.map parseSummaryResponse ++
          (fallbackRun inp).emitted,
        term := (fallbackRun inp).term, fallbackCalls := (fallbackRun inp).fallbackCalls } := by
    simp [runStream, hf, ho, hr, hm, hns]
  rw [hout]
  refine ⟨?_, ?_, ?_⟩
  · cases hft : inp.fallbackText <;> simp [fallbackRun, hft]
  · intro t hft
    simp [fallbackRun, hft]
  · intro hft
    simp [fallbackRun, hft]

/-- C4 amended witness at the concrete mid-stream failure input. -/
theorem C4_amended_fallback_witness :
    (inpC4.fetchRejects = false ∧ inpC4.ok = true ∧ inpC4.readerPresent = true ∧
      inpC4.midErr = true ∧ (runChunks jsonOracle [] initSt inpC4.chunks).stopped = false) ∧
    ((runStream jsonOracle inpC4).fallbackCalls = 1 ∧
      (∀ t, inpC4.fallbackText = some t →
        (runStream jsonOracle inpC4).emitted =
          (runChunks jsonOracle [] initSt inpC4.chunks).emitted.map parseSummaryResponse ++
            [parseSummaryResponse t] ∧
        (runStream jsonOracle inpC4).term = Terminal.complete) ∧
      (inpC4.fallbackText = none →
        (runStream jsonOracle inpC4).emitted =
          (runChunks jsonOracle [] initSt inpC4.chunks).emitted.map parseSummaryResponse ∧
        (runStream jsonOracle inpC4).term = Terminal.errored StreamErr.fallbackFailed)) :=
  ⟨⟨rfl, rfl, rfl, rfl, by decide⟩,
    C4_amended_fallback jsonOracle inpC4 rfl rfl rfl rfl (by decide)⟩

/-- C5 counterexample: on a text without any SUMMARY marker the derived
headline is Cats — captured after a HEADLINE marker that does not start a
line — while the claim requires the headline to be empty whenever the
SUMMARY marker is absent (and the marker to be line-anchored). -/
theorem C5_counterexample :
    findSm (cp "see HEADLINE: Cats\nrest") = none ∧
    (parseSummaryResponse (cp "see HEADLINE: Cats\nrest")).headline = cp "Cats" ∧
    (parseSummaryResponse (cp "see HEADLINE: Cats\nrest")).summary =
      cp "see HEADLINE: Cats\nrest" := by
  refine ⟨by decide, by decide, by decide⟩

/-- C5 as amended: for every accumulated text the headline is the trimmed
capture after the first case-insensitive HEADLINE occurrence anywhere in
the text whose tail admits a capture up to the next newline, independent of
the SUMMARY marker and possibly non-empty without it; the summary is the
trimmed text after the first case-insensitive SUMMARY occurrence that has a
non-empty remainder, and the whole text trimmed when there is none. -/
theorem C5_amended_derivation (text : List Nat) :
    parseSummaryResponse text = specParseSummary text :=
  parse_matches_spec text

/-- User-visible error messages the audio controller can set. -/
inductive AppErr where
  | noTogetherKey
  | genFailed
  | playFailed
deriving DecidableEq, Repr

/-- Component state of the audio controller in app.ts. The summary field is
the plain-text rendering of the current summary (stripHtml applied); the
audio element is identified by the object URL it plays. -/
structure PlaySt where
  summary : List Nat
  togetherKey : Bool
  isSpeaking : Bool
  isPaused : Bool
  generatingAudio : Bool
  hasAudio : Bool
  currentTime : Nat
  duration : Nat
  currentAudio : Option Nat
  timeUpdateInterval : Option Nat
  errorMsg : Option AppErr
deriving DecidableEq, Repr

/-- Browser resources the controller allocates: object URLs not yet revoked
(URL.createObjectURL ids handed out in order), interval timers not yet
cleared, and the number of synthesis requests issued. -/
structure Env where
  nextId : Nat
  liveUrls : List Nat
  activeTimers : List Nat
  genCalls : Nat
deriving DecidableEq, Repr

/-- Embedding of stopTimeUpdate: clear the stored interval if any. -/
def stopTimeUpdate (st : PlaySt) (env : Env) : PlaySt × Env :=
  match st.timeUpdateInterval with
  | some tid =>
    ({ st with timeUpdateInterval := none },
      { env with activeTimers := env.activeTimers.erase tid })
  | none => (st, env)

/-- Embedding of startTimeUpdate: clear any previous interval, then install
a fresh one. -/
def startTimeUpdate (st : PlaySt) (env : Env) : PlaySt × Env :=
  match stopTimeUpdate st env with
  | (st1, env1) =>
    ({ st1 with timeUpdateInterval := some env1.nextId },
      { env1 with nextId := env1.nextId + 1,
                  activeTimers := env1.activeTimers ++ [env1.nextId] })

/-- Effect of the play event handler installed by generateAudio (audio.onplay):
speaking, not paused, generation flag cleared, position polling started.
The advisory media-session mirroring has no modelled effect. -/
def onPlayEvent (st : PlaySt) (env : Env) : PlaySt × Env :=
  startTimeUpdate
    { st with isSpeaking := true, isPaused := false, generatingAudio := false } env

/-- Effect of the ended event handler (audio.onended) of the element whose
object URL is u: reset flags and position, stop polling, drop the handle
and revoke the URL. -/
def onEndedEvent (st : PlaySt) (env : Env) (u : Nat) : PlaySt × Env :=
  match stopTimeUpdate
      { st with isSpeaking := false, isPaused := false, currentTime := 0 } env with
  | (st1, env1) =>
    ({ st1 with currentAudio := none, hasAudio := false },
      { env1 with liveUrls := env1.liveUrls.erase u })

/-- Effect of the error event handler (audio.onerror) of the element whose
object URL is u: reset flags, stop polling, drop the handle, revoke the
URL, report a playback error. -/
def onErrorEvent (st : PlaySt) (env : Env) (u : Nat) : PlaySt × Env :=
  match stopTimeUpdate
      { st with isSpeaking := false, isPaused := false, generatingAudio := false } env with
  | (st1, env1) =>
    ({ st1 with currentAudio := none, hasAudio := false, errorMsg := some AppErr.playFailed },
      { env1 with liveUrls := env1.liveUrls.erase u })

/-- Possible outcomes of the metadata wait of generateAudio: metadata
already available (readyState at least one), the loadedmetadata event firing
in time, the error event firing, or the five-second timeout expiring with
the duration known so far (zero meaning no value, the falsy case). -/
inductive MetaCase where
  | ready (d : Nat)
  | loaded (d : Nat)
  | loadErr
  | timeout (d : Nat)
deriving DecidableEq, Repr

/-- Outcome of the synthesis request of generateAudio. -/
inductive GenOutcome where
  | apiErr
  | meta (m : MetaCase)
deriving DecidableEq, Repr

/-- Success continuation of generateAudio after the metadata wait resolved
with duration d: install the handle, mark audio available, then attempt the
automatic audio.play(); on success the play event handler runs, a rejected
play is only logged and the audio stays available for manual play. -/
def afterMeta (st1 : PlaySt) (env1 : Env) (urlId d : Nat) (playOk : Bool) : PlaySt × Env :=
  let st2 := { st1 with duration := d, currentAudio := some urlId, hasAudio := true,
                        generatingAudio := false }
  if playOk then onPlayEvent st2 env1 else (st2, env1)

/-- Embedding of generateAudio of app.ts. Guards: empty summary, an already
present artifact, empty plain text and a missing narration key all return
without a request. Otherwise one synthesis request is issued; on its
success an object URL is created and the metadata wait runs: failure of
that wait (error event, or timeout with no duration value) lands in the
catch block, which only clears the busy flag and sets the error message —
the freshly created object URL is not revoked there. -/
def generateAudio (st : PlaySt) (env : Env) (out : GenOutcome) (playOk : Bool) :
    PlaySt × Env :=
  if st.summary = [] then (st, env)
  else if st.hasAudio ∧ st.currentAudio.isSome then (st, env)
  else if trimCp st.summary = [] then (st, env)
  else if ¬ st.togetherKey then ({ st with errorMsg := some AppErr.noTogetherKey }, env)
  else
    let st1 := { st with generatingAudio := true }
    match out with
    | GenOutcome.apiErr =>
      ({ st1 with generatingAudio := false, errorMsg := some AppErr.genFailed },
        { env with genCalls := env.genCalls + 1 })
    | GenOutcome.meta m =>
      let urlId := env.nextId
      let env1 := { env with genCalls := env.genCalls + 1, nextId := env.nextId + 1,
                             liveUrls := env.liveUrls ++ [urlId] }
      match m with
      | MetaCase.loadErr =>
        ({ st1 with generatingAudio := false, errorMsg := some AppErr.genFailed }, env1)
      | MetaCase.timeout d =>
        if d = 0 then
          ({ st1 with generatingAudio := false, errorMsg := some AppErr.genFailed }, env1)
        else afterMeta st1 env1 urlId d playOk
      | MetaCase.ready d => afterMeta st1 env1 urlId d playOk
      | MetaCase.loaded d => afterMeta st1 env1 urlId d playOk

/-- Embedding of pauseSpeech; the queued pause event handler of the element
(which repeats the flag and stops the polling) is folded in synchronously. -/
def pauseSpeech (st : PlaySt) (env : Env) : PlaySt × Env :=
  if st.currentAudio.isSome ∧ st.isSpeaking ∧ ¬ st.isPaused then
    match stopTimeUpdate st env with
    | (st1, env1) => ({ st1 with isPaused := true }, env1)
  else (st, env)

/-- Embedding of resumeSpeech: replay the existing element when paused; on
success the play event handler runs and the paused flag clears, a rejected
play is only logged. -/
def resumeSpeech (st : PlaySt) (env : Env) (playOk : Bool) : PlaySt × Env :=
  if st.currentAudio.isSome ∧ st.isPaused then
    if playOk then
      match onPlayEvent st env with
      | (st1, env1) => ({ st1 with isPaused := false }, env1)
    else (st, env)
  else (st, env)

/-- Embedding of stopSpeech: pause and drop the element, revoking its blob
URL, reset every transport flag and the position, and stop the polling. -/
def stopSpeech (st : PlaySt) (env : Env) : PlaySt × Env :=
  match (match st.currentAudio with
    | some u =>
      (({ st with currentAudio := none } : PlaySt),
        ({ env with liveUrls := env.liveUrls.erase u } : Env))
    | none => (st, env)) with
  | (st1, env1) =>
    stopTimeUpdate
      { st1 with isSpeaking := false, isPaused := false, generatingAudio := false,
                 currentTime := 0, hasAudio := false } env1

/-- Embedding of playSpeech: toggle to pause while speaking, resume while
paused, otherwise stop any current speech, generate when no artifact is
present, and play the artifact (a play after a successful auto-play is a
no-op on the already playing element; a rejected play sets the playback
error). -/
def playSpeech (st : PlaySt) (env : Env) (out : GenOutcome) (playOk : Bool) :
    PlaySt × Env :=
  if st.summary = [] then (st, env)
  else if st.isSpeaking ∧ ¬ st.isPaused then pauseSpeech st env
  else if st.isPaused then resumeSpeech st env playOk
  else
    match stopSpeech st env with
    | (st1, env1) =>
      match (if ¬ (st1.hasAudio ∧ st1.currentAudio.isSome) then
          generateAudio st1 env1 out playOk else (st1, env1)) with
      | (st2, env2) =>
        if st2.currentAudio.isSome ∧ st2.hasAudio then
          if st2.isSpeaking then (st2, env2)
          else if playOk then onPlayEvent st2 env2
          else ({ st2 with errorMsg := some AppErr.playFailed }, env2)
        else (st2, env2)

/-- A fresh controller state with a summary present and the narration key
configured. -/
def idleSt : PlaySt :=
  { summary := cp "Hello world", togetherKey := true, isSpeaking := false,
    isPaused := false, generatingAudio := false, hasAudio := false,
    currentTime := 0, duration := 0, currentAudio := none,
    timeUpdateInterval := none, errorMsg := none }

/-- A fresh resource environment. -/
def env0 : Env := { nextId := 0, liveUrls := [], activeTimers := [], genCalls := 0 }

/-- C8: stopSpeech is valid from every state and idempotent: one call leaves
the controller idle — not speaking, not paused, not generating, no audio
artifact, position zero, no pending position-update timer — and a second
call changes nothing, also when called from the idle state. -/
theorem C8_stop_idempotent (st : PlaySt) (env : Env) :
    (stopSpeech st env).1.isSpeaking = false ∧
    (stopSpeech st env).1.isPaused = false ∧
    (stopSpeech st env).1.generatingAudio = false ∧
    (stopSpeech st env).1.currentAudio = none ∧
    (stopSpeech st env).1.hasAudio = false ∧
    (stopSpeech st env).1.currentTime = 0 ∧
    (stopSpeech st env).1.timeUpdateInterval = none ∧
    stopSpeech (stopSpeech st env).1 (stopSpeech st env).2 = stopSpeech st env := by
  obtain ⟨sm, tk, sp, ps, ga, ha, ct, du, ca, ti, em⟩ := st
  cases ca <;> cases ti <;> simp [stopSpeech, stopTimeUpdate]

/-- C9: calling play while playing pauses (toggle); calling it from paused
resumes the same artifact with no new generation request; calling it from
idle issues one generation request and then starts playback. -/
theorem C9_play_semantics (st : PlaySt) (env : Env) (out : GenOutcome) (playOk : Bool)
    (hs : st.summary ≠ []) :
    (st.isSpeaking = true → st.isPaused = false → st.currentAudio.isSome = true →
      (playSpeech st env out playOk).1.isPaused = true ∧
      (playSpeech st env out playOk).1.currentAudio = st.currentAudio ∧
      (playSpeech st env out playOk).2.genCalls = env.genCalls) ∧
    (st.isPaused = true → st.currentAudio.isSome = true → playOk = true →
      (playSpeech st env out playOk).1.isPaused = false ∧
      (playSpeech st env out playOk).1.isSpeaking = true ∧
      (playSpeech st env out playOk).1.currentAudio = st.currentAudio ∧
      (playSpeech st env out playOk).2.genCalls = env.genCalls) ∧
    (st.isSpeaking = false → st.isPaused = false →
      st.togetherKey = true → trimCp st.summary ≠ [] →
      ∀ d, d ≠ 0 → out = GenOutcome.meta (MetaCase.ready d) → playOk = true →
      (playSpeech st env out playOk).2.genCalls = env.genCalls + 1 ∧
      (playSpeech st env out playOk).1.isSpeaking = true ∧
      (playSpeech st env out playOk).1.isPaused = false ∧
      (playSpeech st env out playOk).1.currentAudio.isSome = true) := by
  obtain ⟨sm, tk, sp, ps, ga, ha, ct, du, ca, ti, em⟩ := st
  refine ⟨?_, ?_, ?_⟩
  · intro hsp hps hca
    simp only [] at hsp hps hca
    subst hsp
    subst hps
    cases ca with
    | none => simp at hca
    | some u =>
      cases ti <;>
        simp [playSpeech, pauseSpeech, stopTimeUpdate, hs]
  · intro hps hca hpo
    simp only [] at hps hca
    subst hps
    subst hpo
    cases ca with
    | none => simp at hca
    | some u =>
      cases sp <;> cases ti <;>
        simp [playSpeech, pauseSpeech, resumeSpeech, onPlayEvent, startTimeUpdate,
          stopTimeUpdate, hs]
  · intro hsp hps hk htr d hd hout hpo
    simp only [] at hsp hps hk
    subst hsp
    subst hps
    subst hk
    subst hout
    subst hpo
    cases ca <;> cases ti <;>
      simp [playSpeech, stopSpeech, generateAudio, afterMeta, onPlayEvent,
        startTimeUpdate, stopTimeUpdate, hs, htr, hd]

/-- C9 witness at the fresh idle state with a successful generation. -/
theorem C9_play_semantics_witness :
    ((idleSt.isSpeaking = true → idleSt.isPaused = false → idleSt.currentAudio.isSome = true →
      (playSpeech idleSt env0 (GenOutcome.meta (MetaCase.ready 5)) true).1.isPaused = true ∧
      (playSpeech idleSt env0 (GenOutcome.meta (MetaCase.ready 5)) true).1.currentAudio =
        idleSt.currentAudio ∧
      (playSpeech idleSt env0 (GenOutcome.meta (MetaCase.ready 5)) true).2.genCalls =
        env0.genCalls) ∧
    (idleSt.isPaused = true → idleSt.currentAudio.isSome = true → true = true →
      (playSpeech idleSt env0 (GenOutcome.meta (MetaCase.ready 5)) true).1.isPaused = false ∧
      (playSpeech idleSt env0 (GenOutcome.meta (MetaCase.ready 5)) true).1.isSpeaking = true ∧
      (playSpeech idleSt env0 (GenOutcome.meta (MetaCase.ready 5)) true).1.currentAudio =
        idleSt.currentAudio ∧
      (playSpeech idleSt env0 (GenOutcome.meta (MetaCase.ready 5)) true).2.genCalls =
        env0.genCalls) ∧
    (idleSt.isSpeaking = false → idleSt.isPaused = false →
      idleSt.togetherKey = true → trimCp idleSt.summary ≠ [] →
      ∀ d, d ≠ 0 → GenOutcome.meta (MetaCase.ready 5) = GenOutcome.meta (MetaCase.ready d) →
      true = true →
      (playSpeech idleSt env0 (GenOutcome.meta (MetaCase.ready 5)) true).2.genCalls =
        env0.genCalls + 1 ∧
      (playSpeech idleSt env0 (GenOutcome.meta (MetaCase.ready 5)) true).1.isSpeaking = true ∧
      (playSpeech idleSt env0 (GenOutcome.meta (MetaCase.ready 5)) true).1.isPaused = false ∧
      (playSpeech idleSt env0 (GenOutcome.meta (MetaCase.ready 5)) true).1.currentAudio.isSome =
        true)) :=
  C9_play_semantics idleSt env0 (GenOutcome.meta (MetaCase.ready 5)) true (by decide)

/-- C6 counterexample: from a fresh state with a summary and a configured
key, a generation whose metadata wait fails leaves the freshly created
object URL allocated (live URL list [0]) while no handle is installed — the
partially-created playable buffer is not released on this terminal error
transition. -/
theorem C6_counterexample :
    (generateAudio idleSt env0 (GenOutcome.meta MetaCase.loadErr) true).2.liveUrls = [0] ∧
    (generateAudio idleSt env0 (GenOutcome.meta MetaCase.loadErr) true).1.currentAudio = none ∧
    (generateAudio idleSt env0 (GenOutcome.meta MetaCase.loadErr) true).1.errorMsg =
      some AppErr.genFailed := by
  refine ⟨by decide, by decide, by decide⟩

/-- C6 as amended: the ended event, the playback-error event and stopSpeech
each release the playable buffer — the handle is dropped, one allocation of
its object URL is revoked, and the position-polling timer is cleared. When
the metadata wait of generateAudio fails — its error event, or its timeout
with no duration value known — the catch block does not revoke the object
URL created in the failed attempt: it only clears the busy flag and reports
the error, leaving the URL allocated with no handle. A rejected automatic
audio.play(), by contrast, is not a generation failure: the inner catch
absorbs it, the artifact stays installed with its URL as the live buffer,
no error is reported and the busy flag clears. -/
theorem C6_amended_lifecycle :
    (∀ (st : PlaySt) (env : Env) (u : Nat), st.currentAudio = some u →
      (stopSpeech st env).2.liveUrls.count u = env.liveUrls.count u - 1 ∧
      (stopSpeech st env).1.currentAudio = none ∧
      (stopSpeech st env).1.timeUpdateInterval = none) ∧
    (∀ (st : PlaySt) (env : Env) (u : Nat),
      (onEndedEvent st env u).2.liveUrls.count u = env.liveUrls.count u - 1 ∧
      (onEndedEvent st env u).1.currentAudio = none ∧
      (onEndedEvent st env u).1.timeUpdateInterval = none ∧
      (onEndedEvent st env u).1.isSpeaking = false ∧
      (onEndedEvent st env u).1.currentTime = 0) ∧
    (∀ (st : PlaySt) (env : Env) (u : Nat),
      (onErrorEvent st env u).2.liveUrls.count u = env.liveUrls.count u - 1 ∧
      (onErrorEvent st env u).1.currentAudio = none ∧
      (onErrorEvent st env u).1.timeUpdateInterval = none) ∧
    (∀ (st : PlaySt) (env : Env) (tid : Nat), st.timeUpdateInterval = some tid →
      (stopSpeech st env).2.activeTimers.count tid = env.activeTimers.count tid - 1 ∧
      ∀ u, (onEndedEvent st env u).2.activeTimers.count tid =
        env.activeTimers.count tid - 1) ∧
    (∀ (st : PlaySt) (env : Env) (playOk : Bool) (m : MetaCase), st.summary ≠ [] →
      ¬ (st.hasAudio ∧ st.currentAudio.isSome) → trimCp st.summary ≠ [] →
      st.togetherKey = true →
      (m = MetaCase.loadErr ∨ m = MetaCase.timeout 0) →
      (generateAudio st env (GenOutcome.meta m) playOk).2.liveUrls =
        env.liveUrls ++ [env.nextId] ∧
      (generateAudio st env (GenOutcome.meta m) playOk).1.currentAudio =
        st.currentAudio ∧
      (generateAudio st env (GenOutcome.meta m) playOk).1.errorMsg =
        some AppErr.genFailed) ∧
    (∀ (st : PlaySt) (env : Env) (m : MetaCase) (d : Nat), st.summary ≠ [] →
      ¬ (st.hasAudio ∧ st.currentAudio.isSome) → trimCp st.summary ≠ [] →
      st.togetherKey = true →
      (m = MetaCase.ready d ∨ m = MetaCase.loaded d ∨
        (m = MetaCase.timeout d ∧ d ≠ 0)) →
      (generateAudio st env (GenOutcome.meta m) false).1.currentAudio =
        some env.nextId ∧
      (generateAudio st env (GenOutcome.meta m) false).1.hasAudio = true ∧
      (generateAudio st env (GenOutcome.meta m) false).1.generatingAudio = false ∧
      (generateAudio st env (GenOutcome.meta m) false).1.errorMsg = st.errorMsg ∧
      (generateAudio st env (GenOutcome.meta m) false).2.liveUrls =
        env.liveUrls ++ [env.nextId]) := by
  refine ⟨?_, ?_, ?_, ?_, ?_, ?_⟩
  · intro st env u hca
    obtain ⟨sm, tk, sp, ps, ga, ha, ct, du, ca, ti, em⟩ := st
    simp only [] at hca
    subst hca
    cases ti <;> simp [stopSpeech, stopTimeUpdate, List.count_erase_self]
  · intro st env u
    obtain ⟨sm, tk, sp, ps, ga, ha, ct, du, ca, ti, em⟩ := st
    cases ti <;> simp [onEndedEvent, stopTimeUpdate, List.count_erase_self]
  · intro st env u
    obtain ⟨sm, tk, sp, ps, ga, ha, ct, du, ca, ti, em⟩ := st
    cases ti <;> simp [onErrorEvent, stopTimeUpdate, List.count_erase_self]
  · intro st env tid hti
    obtain ⟨sm, tk, sp, ps, ga, ha, ct, du, ca, ti, em⟩ := st
    simp only [] at hti
    subst hti
    cases ca <;>
      simp [stopSpeech, onEndedEvent, stopTimeUpdate, List.count_erase_self]
  · intro st env playOk m hs hna htr hk hm
    obtain ⟨sm, tk, sp, ps, ga, ha, ct, du, ca, ti, em⟩ := st
    simp only [] at hk
    subst hk
    rcases hm with rfl | rfl <;> simp [generateAudio, hs, htr, hna]
  · intro st env m d hs hna htr hk hm
    obtain ⟨sm, tk, sp, ps, ga, ha, ct, du, ca, ti, em⟩ := st
    simp only [] at hk
    subst hk
    rcases hm with rfl | rfl | ⟨rfl, hd⟩
    · simp [generateAudio, afterMeta, hs, htr, hna]
    · simp [generateAudio, afterMeta, hs, htr, hna]
    · simp [generateAudio, afterMeta, hs, htr, hna, hd]

/-- A live playing state: speaking with audio handle zero and timer one. -/
def playingSt : PlaySt :=
  { idleSt with
    isSpeaking := true
    hasAudio := true
    currentAudio := some 0
    timeUpdateInterval := some 1 }

/-- Resource environment matching playingSt: URL zero and timer one live. -/
def envP : Env :=
  { nextId := 2, liveUrls := [0], activeTimers := [1], genCalls := 1 }

/-- C6 amended witness: stopping the live playing state releases URL zero,
drops the handle and clears the timer; from the fresh state a generation
whose metadata timeout expires with no duration leaks the created URL, and
one whose play is rejected still installs the artifact with no error. -/
theorem C6_amended_lifecycle_witness :
    (playingSt.currentAudio = some 0 ∧
      ((stopSpeech playingSt envP).2.liveUrls.count 0 = envP.liveUrls.count 0 - 1 ∧
      (stopSpeech playingSt envP).1.currentAudio = none ∧
      (stopSpeech playingSt envP).1.timeUpdateInterval = none)) ∧
    ((generateAudio idleSt env0 (GenOutcome.meta (MetaCase.timeout 0)) true).2.liveUrls =
        env0.liveUrls ++ [env0.nextId] ∧
      (generateAudio idleSt env0 (GenOutcome.meta (MetaCase.timeout 0)) true).1.currentAudio =
        idleSt.currentAudio ∧
      (generateAudio idleSt env0 (GenOutcome.meta (MetaCase.timeout 0)) true).1.errorMsg =
        some AppErr.genFailed) ∧
    ((generateAudio idleSt env0 (GenOutcome.meta (MetaCase.ready 5)) false).1.currentAudio =
        some env0.nextId ∧
      (generateAudio idleSt env0 (GenOutcome.meta (MetaCase.ready 5)) false).1.hasAudio = true ∧
      (generateAudio idleSt env0 (GenOutcome.meta (MetaCase.ready 5)) false).1.generatingAudio =
        false ∧
      (generateAudio idleSt env0 (GenOutcome.meta (MetaCase.ready 5)) false).1.errorMsg =
        idleSt.errorMsg ∧
      (generateAudio idleSt env0 (GenOutcome.meta (MetaCase.ready 5)) false).2.liveUrls =
        env0.liveUrls ++ [env0.nextId]) :=
  ⟨⟨rfl, C6_amended_lifecycle.1 playingSt envP 0 rfl⟩,
   C6_amended_lifecycle.2.2.2.2.1 idleSt env0 true (MetaCase.timeout 0)
     (by decide) (by decide) (by decide) rfl (Or.inr rfl),
   C6_amended_lifecycle.2.2.2.2.2 idleSt env0 (MetaCase.ready 5) 5
     (by decide) (by decide) (by decide) rfl (Or.inl rfl)⟩

/-- C7 counterexample: when the metadata wait times out with no duration
value known, the wait rejects and generateAudio fails as a whole — the
error message is set, no audio is available and no handle installed —
against the claim that the operation does not fail because of the
timeout. -/
theorem C7_counterexample :
    (generateAudio idleSt env0 (GenOutcome.meta (MetaCase.timeout 0)) true).1.errorMsg =
      some AppErr.genFailed ∧
    (generateAudio idleSt env0 (GenOutcome.meta (MetaCase.timeout 0)) true).1.hasAudio = false ∧
    (generateAudio idleSt env0 (GenOutcome.meta (MetaCase.timeout 0)) true).1.currentAudio =
      none := by
  refine ⟨by decide, by decide, by decide⟩

/-- C7 as amended: if the bounded metadata wait expires while a (non-zero)
duration value is already known, that value is kept best-effort and the
generation succeeds — the handle is installed, no error is reported; if no
duration value is known at the timeout the wait rejects and the whole
generateAudio call fails with the audio-generation error. -/
theorem C7_amended_timeout (st : PlaySt) (env : Env) (playOk : Bool) (d : Nat)
    (hs : st.summary ≠ []) (hna : ¬ (st.hasAudio ∧ st.currentAudio.isSome))
    (htr : trimCp st.summary ≠ []) (hk : st.togetherKey = true) :
    (d ≠ 0 →
      (generateAudio st env (GenOutcome.meta (MetaCase.timeout d)) playOk).1.duration = d ∧
      (generateAudio st env (GenOutcome.meta (MetaCase.timeout d)) playOk).1.hasAudio = true ∧
      (generateAudio st env (GenOutcome.meta (MetaCase.timeout d)) playOk).1.currentAudio =
        some env.nextId ∧
      (generateAudio st env (GenOutcome.meta (MetaCase.timeout d)) playOk).1.errorMsg =
        st.errorMsg) ∧
    (d = 0 →
      (generateAudio st env (GenOutcome.meta (MetaCase.timeout d)) playOk).1.errorMsg =
        some AppErr.genFailed ∧
      (generateAudio st env (GenOutcome.meta (MetaCase.timeout d)) playOk).1.hasAudio =
        st.hasAudio ∧
      (generateAudio st env (GenOutcome.meta (MetaCase.timeout d)) playOk).1.currentAudio =
        st.currentAudio) := by
  obtain ⟨sm, tk, sp, ps, ga, ha, ct, du, ca, ti, em⟩ := st
  simp only [] at hk
  subst hk
  constructor
  · intro hd
    cases playOk <;> cases ti <;>
      simp [generateAudio, afterMeta, onPlayEvent, startTimeUpdate, stopTimeUpdate,
        hs, htr, hna, hd]
  · intro hd
    subst hd
    simp [generateAudio, hs, htr, hna]

/-- C7 amended witness at the fresh state with a known duration of seven at
the timeout. -/
theorem C7_amended_timeout_witness :
    ((7 : Nat) ≠ 0 →
      (generateAudio idleSt env0 (GenOutcome.meta (MetaCase.timeout 7)) true).1.duration = 7 ∧
      (generateAudio idleSt env0 (GenOutcome.meta (MetaCase.timeout 7)) true).1.hasAudio = true ∧
      (generateAudio idleSt env0 (GenOutcome.meta (MetaCase.timeout 7)) true).1.currentAudio =
        some env0.nextId ∧
      (generateAudio idleSt env0 (GenOutcome.meta (MetaCase.timeout 7)) true).1.errorMsg =
        idleSt.errorMsg) ∧
    ((7 : Nat) = 0 →
      (generateAudio idleSt env0 (GenOutcome.meta (MetaCase.timeout 7)) true).1.errorMsg =
        some AppErr.genFailed ∧
      (generateAudio idleSt env0 (GenOutcome.meta (MetaCase.timeout 7)) true).1.hasAudio =
        idleSt.hasAudio ∧
      (generateAudio idleSt env0 (GenOutcome.meta (MetaCase.timeout 7)) true).1.currentAudio =
        idleSt.currentAudio) :=
  C7_amended_timeout idleSt env0 true 7 (by decide) (by decide) (by decide) (by decide)

/-- The regexp class of the video-id capture of the first extraction
pattern: every character except ampersand, line feed, question mark and
hash. -/
def notDelim (c : Nat) : Bool := !(c == 38 || c == 10 || c == 63 || c == 35)

/-- The five literal prefixes of the URL-form alternation of
extractVideoId, in source order. -/
def alts : List (List Nat) :=
  [cp "youtube.com/watch?v=", cp "youtu.be/", cp "youtube.com/embed/",
   cp "m.youtube.com/watch?v=", cp "youtube.com/v/"]

/-- Attempt of the first extraction regex at one position (a suffix of the
text): each alternative in order, its literal followed by a non-empty run
of non-delimiter characters, which is the capture. -/
def altMatch (s : List Nat) : Option (List Nat) :=
  alts.findSome? fun a =>
    if a.isPrefixOf s then
      match (s.drop a.length).takeWhile notDelim with
      | [] => none
      | c :: cs => some (c :: cs)
    else none

/-- Leftmost match of the first extraction regex: the capture at the first
position where some alternative succeeds. -/
def p1Search (u : List Nat) : Option (List Nat) :=
  match scanFirst (fun s => (altMatch s).isSome) u 0 with
  | some i => altMatch (u.drop i)
  | none => none

/-- The character class of the anchored direct-video-id pattern: ASCII
letters, digits, underscore and hyphen. -/
def idChar (c : Nat) : Bool :=
  decide (97 ≤ c ∧ c ≤ 122) || decide (65 ≤ c ∧ c ≤ 90) ||
    decide (48 ≤ c ∧ c ≤ 57) || c == 95 || c == 45

/-- Embedding of extractVideoId of src/src/app/services/api.ts: trim the
input, try the unanchored URL-form alternation, then the fully anchored
eleven-character direct-id pattern; null when both fail. -/
def extractVideoId (url : List Nat) : Option (List Nat) :=
  let u := trimCp url
  match p1Search u with
  | some r => some r
  | none => if u.length = 11 ∧ u.all idChar = true then some u else none

/-- Synchronous observable outcome of one getTranscript call: the
invalid-URL throw, the missing-key throw, or the issued request with its
url parameter. -/
inductive TranscriptCall where
  | thrownInvalidUrl
  | thrownMissingKey
  | request (url : List Nat)
deriving DecidableEq, Repr

/-- Embedding of getTranscript of src/src/app/services/api.ts: extract the
id and throw when there is none, then check the stored API key, then issue
the request with the formatted watch URL. -/
def getTranscript (input : List Nat) (apiKey : Bool) : TranscriptCall :=
  match extractVideoId input with
  | none => TranscriptCall.thrownInvalidUrl
  | some vid =>
    if apiKey then TranscriptCall.request (cp "https://www.youtube.com/watch?v=" ++ vid)
    else TranscriptCall.thrownMissingKey

/-- Spec reading of the URL-form search: the capture at the first position
of the text at which one of the five URL forms occurs followed by at least
one non-delimiter character. -/
def specP1 (u : List Nat) : Option (List Nat) :=
  match firstIdx (fun i => (altMatch (u.drop i)).isSome) u.length with
  | some i => altMatch (u.drop i)
  | none => none

/-- Spec reading of extractVideoId per the claim: the captured id of the
first URL-form occurrence in the trimmed input; otherwise the trimmed
input itself exactly when it consists of eleven characters that are all
letters, digits, underscores or hyphens; null for every other input. -/
def specExtract (url : List Nat) : Option (List Nat) :=
  let u := trimCp url
  match specP1 u with
  | some r => some r
  | none => if u.length = 11 ∧ (∀ c ∈ u, idChar c = true) then some u else none

theorem scanFirst_eq_firstIdx (p : List Nat → Bool) (l : List Nat) :
    scanFirst p l 0 = firstIdx (fun i => p (l.drop i)) l.length := by
  cases h : scanFirst p l 0 with
  | some i =>
    rcases (scanFirst_some_iff p l 0 i).mp h with ⟨j, hj, hlen, hp, hmin⟩
    have hij : i = j := by omega
    subst hij
    symm
    exact (firstIdx_some_iff _ _ i).mpr ⟨hlen, hp, hmin⟩
  | none =>
    symm
    exact (firstIdx_none_iff _ _).mpr fun k hk => (scanFirst_none_iff p l 0).mp h k hk

theorem p1Search_eq_spec (u : List Nat) : p1Search u = specP1 u := by
  simp only [p1Search, specP1]
  rw [scanFirst_eq_firstIdx]

/-- C10: extractVideoId agrees everywhere with the declarative reading of
the claim — the captured id of the first URL-form occurrence (watch,
youtu.be, embed, m.youtube, /v/), else the eleven-character direct id,
else null — and whenever no id is extractable, getTranscript throws the
invalid-URL error for every credential state and issues no request; a
request is issued only when a key is present and carries the formatted
watch URL of an extracted id. -/
theorem C10_extract_guard :
    (∀ url, extractVideoId url = specExtract url) ∧
    (∀ url key, extractVideoId url = none →
      getTranscript url key = TranscriptCall.thrownInvalidUrl) ∧
    (∀ url key u, getTranscript url key = TranscriptCall.request u →
      key = true ∧ ∃ vid, extractVideoId url = some vid ∧
        u = cp "https://www.youtube.com/watch?v=" ++ vid) := by
  refine ⟨?_, ?_, ?_⟩
  · intro url
    simp only [extractVideoId, specExtract]
    rw [p1Search_eq_spec]
    cases h : specP1 (trimCp url) with
    | some r => simp only [h]
    | none =>
      simp only [h, List.all_eq_true]
  · intro url key h
    simp only [getTranscript, h]
  · intro url key u h
    simp only [getTranscript] at h
    cases he : extractVideoId url with
    | none => rw [he] at h; exact absurd h (by simp)
    | some vid =>
      rw [he] at h
      cases key with
      | false => exact absurd h (by simp)
      | true =>
        simp only [if_pos rfl] at h
        exact ⟨rfl, vid, rfl, by
          cases h
          rfl⟩

/-- C10 witness: an input with no extractable id is thrown back for both
credential states. -/
theorem C10_extract_guard_witness :
    extractVideoId (cp "not a valid url!") = none ∧
    getTranscript (cp "not a valid url!") true = TranscriptCall.thrownInvalidUrl ∧
    getTranscript (cp "not a valid url!") false = TranscriptCall.thrownInvalidUrl :=
  ⟨by decide,
   C10_extract_guard.2.1 (cp "not a valid url!") true (by decide),
   C10_extract_guard.2.1 (cp "not a valid url!") false (by decide)⟩

end YTA
